import Mathlib

/-!
# SfMStereoUtilities: a shallow embedding

The four operations of `SfMToyLib/SfMStereoUtilities.cpp` are embedded as Lean
functions.  The OpenCV routines they call are external to the repository; they
are collected in the record `CvLib` and every theorem quantifies over all of
their possible behaviours.  Calls to collaborators are logged in a `Trace`, one
entry per call site of the source, so that "is never invoked" is a statement
about the log.

Scalars: `float` and `double` values are carried as rationals.  The widening
`float → double` is exact and therefore not visible; the narrowing
`double → float` is kept as the explicit conversion `CvLib.narrow`.  The one piece
of floating-point arithmetic the source itself performs, the single-precision
quotient of the inlier test, is computed with round-to-nearest-even on 24-bit
significands (`floatQuotient`).
Out-of-range reads (undefined behaviour in the source) are faults: the function
returns `none`.
-/

namespace sfmtoylib

/-! ## Data model -/

/-- A `float` value. -/
abbrev Float32 := ℚ

/-- A `double` value. -/
abbrev Float64 := ℚ

/-- The type `cv::Point2f`. -/
structure Point2f where
  x : Float32
  y : Float32
deriving DecidableEq

/-- The type `cv::Point2d`. -/
structure Point2d where
  x : Float64
  y : Float64
deriving DecidableEq

/-- The type `cv::Point3f`. -/
structure Point3f where
  x : Float32
  y : Float32
  z : Float32
deriving DecidableEq

/-- A `cv::Mat` of unconstrained shape, as its list of rows. -/
abbrev Mat := List (List ℚ)

/-- An 8-bit mask matrix (`CV_8U`), one entry per point. -/
abbrev Mask := List Nat

/-- The type `cv::Matx34f`: a 3×4 camera pose. -/
abbrev Matx34f := Matrix (Fin 3) (Fin 4) Float32

/-- A 3×3 matrix. -/
abbrev Matx33 := Matrix (Fin 3) (Fin 3) ℚ

/-- A 3×1 column. -/
abbrev Matx31 := Matrix (Fin 3) (Fin 1) ℚ

/-- Modelled from the spec: the feature point set `Features` (declared in a header that is
not part of the sources) is "an ordered sequence of 2D image coordinates, index-addressable". -/
structure Features where
  points : List Point2f
deriving DecidableEq

/-- Modelled from the spec: one entry of the correspondence list `Matching`, an index pair
`(i, j)` meaning "feature i in the left set corresponds to feature j in the right set".
The field names are the ones the source file uses for back references. -/
structure DMatch where
  queryIdx : Int
  trainIdx : Int
deriving DecidableEq

/-- Modelled from the spec: the correspondence list, an ordered sequence of index pairs. -/
abbrev Matching := List DMatch

/-- Modelled from the spec: the calibration `Intrinsics` is "a 3×3 camera matrix and a
distortion coefficient vector"; the camera matrix may be unset (`K.empty()`), which is
`none` here. -/
structure Intrinsics where
  K : Option Matx33
  distortion : List ℚ

/-- Modelled from the spec: the labelled image pair, which view is "left" and which is
"right". -/
structure ImagePair where
  left : Nat
  right : Nat
deriving DecidableEq

/-- A `std::map` from view identifier to feature index, kept as an association list in
strictly increasing key order. -/
abbrev OriginatingViews := List (Nat × Int)

/-- The assignment `m[k] = v` of `std::map`: inserts the key, or overwrites its value when
the key is already present. -/
def OriginatingViews.assign : OriginatingViews → Nat → Int → OriginatingViews
  | [], k, v => [(k, v)]
  | (k', v') :: rest, k, v =>
      if k < k' then (k, v) :: (k', v') :: rest
      else if k = k' then (k, v) :: rest
      else (k', v') :: OriginatingViews.assign rest k v

/-- Modelled from the spec: the 3D map point, "a 3D coordinate plus a mapping from view
identifier to originating 2D feature index in that view". -/
structure Point3DInMap where
  p : Point3f
  originatingViews : OriginatingViews
deriving DecidableEq

/-- Modelled from the spec: the point cloud, a collection of 3D map points the operations
append to. -/
abbrev PointCloud := List Point3DInMap

/-- Modelled from the spec: the 2D–3D match set, "parallel sequences of 3D coordinates and
their observed 2D projections". -/
structure Image2D3DMatch where
  points2D : List Point2f
  points3D : List Point3f

/-- The type `cv::Rect`: a region of interest given by its corner, width and height. -/
structure Rect where
  x : Nat
  y : Nat
  width : Nat
  height : Nat
deriving DecidableEq

/-- Modelled from the spec: the region `ROT` of a 3×4 pose `[R | t]` holding the rotation,
columns 0..2 of all three rows. -/
def ROT : Rect := ⟨0, 0, 3, 3⟩

/-- Modelled from the spec: the region `TRA` of a 3×4 pose `[R | t]` holding the
translation, column 3 of all three rows. -/
def TRA : Rect := ⟨3, 0, 1, 3⟩

/-- The constant `RANSAC_THRESHOLD` of the source file. -/
def RANSAC_THRESHOLD : Float64 := 5 / 2

/-- The OpenCV method flag `cv::RANSAC`. -/
def RANSAC : Nat := 8

/-! ## External collaborators -/

/-- The OpenCV routines the source calls, with the arguments of each call site in source
order and the output parameters as the result.  No property of them is assumed. -/
structure CvLib where
  /-- The call `findHomography(src, dst, method, threshold, mask)`: the model (`none` when
  empty) and the inlier mask. -/
  findHomography : List Point2f → List Point2f → Nat → Float64 → Option Matx33 × Mask
  /-- The call `findEssentialMat(p1, p2, focal, pp, method, prob, threshold, mask)`: the
  essential matrix and the inlier mask. -/
  findEssentialMat :
    List Point2f → List Point2f → Float64 → Point2d → Nat → Float64 → Float64 → Mat × Mask
  /-- The call `recoverPose(E, p1, p2, R, t, focal, pp, mask)`: rotation, translation and the
  mask after the cheirality check. -/
  recoverPose :
    Mat → List Point2f → List Point2f → Float64 → Point2d → Mask → Matx33 × Matx31 × Mask
  /-- The call `undistortPoints(src, dst, cameraMatrix, distCoeffs)`. -/
  undistortPoints : List Point2f → Option Matx33 → List ℚ → Mat
  /-- The call `triangulatePoints(P1, P2, pts1, pts2, points4D)`. -/
  triangulatePoints : Matx34f → Matx34f → Mat → Mat → Mat
  /-- The call `convertPointsFromHomogeneous(src, dst)`: one row per point. -/
  convertPointsFromHomogeneous : Mat → List Point3f
  /-- The call `solvePnPRansac(obj, img, K, dist, rvec, tvec, useGuess, iterations, error,
  confidence, inliers)`: `rvec`, `tvec` and `inliers`. -/
  solvePnPRansac :
    List Point3f → List Point2f → Option Matx33 → List ℚ → Bool → Nat → Float64 → Float64 →
      Matx31 × Matx31 × List Int
  /-- The call `Rodrigues(rvec, rotMat)`. -/
  Rodrigues : Matx31 → Matx33
  /-- The conversion of a `double` to a `float`. -/
  narrow : Float64 → Float32

/-- One call from the source file to a collaborator. -/
inductive Call where
  | GetAlignedPointsFromMatch
  | PruneFeaturesWithMask
  | findHomography
  | findEssentialMat
  | recoverPose
  | undistortPoints (cameraMatrix : Option Matx33) (distCoeffs : List ℚ)
  | triangulatePoints
  | convertPointsFromHomogeneous
  | solvePnPRansac (cameraMatrix : Option Matx33) (distCoeffs : List ℚ)
  | Rodrigues

/-- The calls made during one run, in order. -/
abbrev Trace := List Call

/-- Whether a call is to one of the OpenCV estimators. -/
def Call.isEstimator : Call → Bool
  | .findHomography => true
  | .findEssentialMat => true
  | .recoverPose => true
  | .solvePnPRansac _ _ => true
  | _ => false

/-- The function `cv::countNonZero`. -/
def countNonZero {α : Type} [Zero α] [DecidableEq α] (m : List α) : Nat :=
  (m.filter (fun v => decide (v ≠ 0))).length

/-! ## Helpers declared outside the source file -/

/-- The read `pts[i]` of a vector at an `int` index; `none` when out of range. -/
def pointAt (pts : List Point2f) (i : Int) : Option Point2f :=
  if i < 0 then none else pts[i.toNat]?

/-- Modelled from the spec: the alignment helper (its definition is not part of the
sources).  "Given a left feature set, a right feature set, and a correspondence list,
produce two aligned point sequences of equal length (one entry per correspondence), and two
back-reference sequences mapping each aligned position to its original index in the
respective source feature set.  No filtering, reordering, or deduplication"; the only
failure mode is an out-of-range index, which yields `none`. -/
def GetAlignedPointsFromMatch (leftFeatures rightFeatures : Features) :
    Matching → Option (Features × Features × List Int × List Int)
  | [] => some (⟨[]⟩, ⟨[]⟩, [], [])
  | m :: ms =>
    match pointAt leftFeatures.points m.queryIdx, pointAt rightFeatures.points m.trainIdx,
        GetAlignedPointsFromMatch leftFeatures rightFeatures ms with
    | some l, some r, some (alignedLeft, alignedRight, leftBackReference, rightBackReference) =>
      some (⟨l :: alignedLeft.points⟩, ⟨r :: alignedRight.points⟩,
        m.queryIdx :: leftBackReference, m.trainIdx :: rightBackReference)
    | _, _, _ => none

/-- The entries of a sequence whose mask entry is non-zero, in order; an entry without a
mask entry is not kept. -/
def maskFilter {α : Type} (xs : List α) (mask : Mask) : List α :=
  ((xs.zip mask).filter (fun pm => decide (pm.2 ≠ 0))).map Prod.fst

/-- Modelled from the spec: the pruning helper (its definition is not part of the sources)
"applies the inlier mask to the aligned point set": the points whose mask entry is non-zero
are kept, in order. -/
def PruneFeaturesWithMask (features : Features) (mask : Mask) : Features :=
  ⟨maskFilter features.points mask⟩

/-- The precondition of the alignment helper: every index of the correspondence list is a
valid index into its feature set. -/
def MatchesInRange (leftFeatures rightFeatures : Features) (matching : Matching) : Prop :=
  ∀ m ∈ matching,
    (0 ≤ m.queryIdx ∧ m.queryIdx < leftFeatures.points.length) ∧
    (0 ≤ m.trainIdx ∧ m.trainIdx < rightFeatures.points.length)

instance (leftFeatures rightFeatures : Features) (matching : Matching) :
    Decidable (MatchesInRange leftFeatures rightFeatures matching) := by
  unfold MatchesInRange; infer_instance

/-! ## `findHomographyInliers` -/

/-- The function `SfMStereoUtilities::findHomographyInliers`: the returned `int` and the
calls made. -/
def findHomographyInliers (cv : CvLib) (left right : Features) (matching : Matching) :
    Option (Int × Trace) :=
  match GetAlignedPointsFromMatch left right matching with
  | none => none
  | some (alignedLeft, alignedRight, _, _) =>
    let tr : Trace := [Call.GetAlignedPointsFromMatch]
    let inlierMask : Mask := []
    let homography : Option Matx33 := none
    let (homography, inlierMask, tr) :=
      if matching.length ≥ 4 then
        let r := cv.findHomography alignedLeft.points alignedRight.points RANSAC RANSAC_THRESHOLD
        (r.1, r.2, tr ++ [Call.findHomography])
      else (homography, inlierMask, tr)
    if matching.length < 4 ∨ homography.isNone then
      some (0, tr)
    else
      some ((countNonZero inlierMask : Int), tr)

/-! ## `findCameraMatricesFromMatch` -/

/-- The output parameters of `findCameraMatricesFromMatch`. -/
structure CameraMatrices where
  prunedLeft : Features
  prunedRight : Features
  Pleft : Matx34f
  Pright : Matx34f

/-- The value `Matx34f::eye()`. -/
def Matx34f.eye : Matx34f :=
  !![1, 0, 0, 0;
     0, 1, 0, 0;
     0, 0, 1, 0]

/-- The function `SfMStereoUtilities::findCameraMatricesFromMatch`: the returned `bool`,
the four output parameters (`out` holds their values on entry) and the calls made. -/
def findCameraMatricesFromMatch (cv : CvLib) (intrinsics : Intrinsics) (matching : Matching)
    (featuresLeft featuresRight : Features) (out : CameraMatrices) :
    Option (Bool × CameraMatrices × Trace) :=
  match intrinsics.K with
  | none => some (false, out, [])
  | some K =>
    let focal : Float64 := K 0 0
    let pp : Point2d := ⟨K 0 2, K 1 2⟩
    match GetAlignedPointsFromMatch featuresLeft featuresRight matching with
    | none => none
    | some (alignedLeft, alignedRight, _, _) =>
      let em := cv.findEssentialMat alignedLeft.points alignedRight.points focal pp RANSAC
        (999 / 1000) 1
      let E := em.1
      let mask := em.2
      let rp := cv.recoverPose E alignedLeft.points alignedRight.points focal pp mask
      let R := rp.1
      let t := rp.2.1
      let mask := rp.2.2
      let Pleft : Matx34f := Matx34f.eye
      let Pright : Matx34f :=
        !![cv.narrow (R 0 0), cv.narrow (R 0 1), cv.narrow (R 0 2), cv.narrow (t 0 0);
           cv.narrow (R 1 0), cv.narrow (R 1 1), cv.narrow (R 1 2), cv.narrow (t 1 0);
           cv.narrow (R 2 0), cv.narrow (R 2 1), cv.narrow (R 2 2), cv.narrow (t 2 0)]
      let prunedLeft := PruneFeaturesWithMask alignedLeft mask
      let prunedRight := PruneFeaturesWithMask alignedRight mask
      some (true, ⟨prunedLeft, prunedRight, Pleft, Pright⟩,
        [Call.GetAlignedPointsFromMatch, Call.findEssentialMat, Call.recoverPose,
         Call.PruneFeaturesWithMask, Call.PruneFeaturesWithMask])

/-- What `recoverPose` returns at its call site in `findCameraMatricesFromMatch`, as a
function of the calibration matrix and the aligned points: the rotation, the translation
and the mask of `findEssentialMat` after the cheirality check. -/
def recoveredPose (cv : CvLib) (K : Matx33) (alignedLeft alignedRight : Features) :
    Matx33 × Matx31 × Mask :=
  let focal : Float64 := K 0 0
  let pp : Point2d := ⟨K 0 2, K 1 2⟩
  let em := cv.findEssentialMat alignedLeft.points alignedRight.points focal pp RANSAC
    (999 / 1000) 1
  cv.recoverPose em.1 alignedLeft.points alignedRight.points focal pp em.2

/-! ## `triangulateViews` -/

/-- The map point built by one iteration of the loop of `triangulateViews` from a row of
the triangulated matrix and the two back references read at the row's index. -/
def mapPoint (imagePair : ImagePair) (row : Point3f) (l r : Int) : Point3DInMap :=
  let originatingViews : OriginatingViews := []
  let originatingViews := originatingViews.assign imagePair.left l
  let originatingViews := originatingViews.assign imagePair.right r
  ⟨⟨row.x, row.y, row.z⟩, originatingViews⟩

/-- The loop of `triangulateViews` from index `i` on: `points3d` holds the rows `i`, `i+1`,
... of the triangulated matrix.  Each row becomes a map point whose originating views are
read from the back references at the row's index; a read past the end is a fault. -/
def appendPoints (imagePair : ImagePair) (leftBackReference rightBackReference : List Int) :
    List Point3f → Nat → PointCloud → Option PointCloud
  | [], _, pointCloud => some pointCloud
  | row :: rest, i, pointCloud =>
    match leftBackReference[i]?, rightBackReference[i]? with
    | some l, some r =>
      let p : Point3DInMap := mapPoint imagePair row l r
      appendPoints imagePair leftBackReference rightBackReference rest (i + 1) (pointCloud ++ [p])
    | _, _ => none

/-- The matrix `points3d` of `triangulateViews`: undistortion of both aligned sets,
triangulation, and conversion of the transposed homogeneous result. -/
def triangulated (cv : CvLib) (intrinsics : Intrinsics) (Pleft Pright : Matx34f)
    (alignedLeft alignedRight : Features) : List Point3f :=
  let normalizedLeftPts := cv.undistortPoints alignedLeft.points intrinsics.K []
  let normalizedRightPts := cv.undistortPoints alignedRight.points intrinsics.K []
  let points3dHomogeneous :=
    cv.triangulatePoints Pleft Pright normalizedLeftPts normalizedRightPts
  cv.convertPointsFromHomogeneous points3dHomogeneous.transpose

/-- The function `SfMStereoUtilities::triangulateViews`: the returned `bool`, the point
cloud on exit (`pointCloud` is the cloud on entry) and the calls made. -/
def triangulateViews (cv : CvLib) (intrinsics : Intrinsics) (imagePair : ImagePair)
    (matching : Matching) (featuresLeft featuresRight : Features) (Pleft Pright : Matx34f)
    (pointCloud : PointCloud) : Option (Bool × PointCloud × Trace) :=
  match GetAlignedPointsFromMatch featuresLeft featuresRight matching with
  | none => none
  | some (alignedLeft, alignedRight, leftBackReference, rightBackReference) =>
    let points3d := triangulated cv intrinsics Pleft Pright alignedLeft alignedRight
    let tr : Trace :=
      [Call.GetAlignedPointsFromMatch,
       Call.undistortPoints intrinsics.K [], Call.undistortPoints intrinsics.K [],
       Call.triangulatePoints, Call.convertPointsFromHomogeneous]
    match appendPoints imagePair leftBackReference rightBackReference points3d 0 pointCloud with
    | none => none
    | some pointCloud => some (true, pointCloud, tr)

/-! ## `findCameraPoseFrom2D3DMatch` -/

/-- Scaling of a positive fraction `num / den` by powers of two until it lies in
`[2^23, 2^24)`: the result `(n, d, k)` stands for `(n / d) * 2^k`.  The first argument
bounds the number of steps. -/
def normalize : Nat → Nat → Nat → Int → Nat × Nat × Int
  | 0, num, den, k => (num, den, k)
  | fuel + 1, num, den, k =>
    if 16777216 * den ≤ num then normalize fuel num (2 * den) (k + 1)
    else if num < 8388608 * den then normalize fuel (2 * num) den (k - 1)
    else (num, den, k)

/-- The integer nearest to `num / den`, ties to the even one. -/
def roundNearestEven (num den : Nat) : Nat :=
  let q := num / den
  let r := num % den
  if 2 * r < den then q else if den < 2 * r then q + 1 else q + q % 2

/-- The `float` nearest to `num / den` (round to nearest, ties to even, 24-bit
significand), as a fraction of naturals.  The exponent range is not bounded: the counts the
source converts are below 2^64, where single precision neither overflows nor underflows. -/
def roundF32 (num den : Nat) : Nat × Nat :=
  if num = 0 ∨ den = 0 then (0, 1)
  else
    match normalize (num + den + 24) num den 0 with
    | (n, d, k) =>
      let m := roundNearestEven n d
      if 0 ≤ k then (m * 2 ^ k.toNat, 1) else (m, 2 ^ (-k).toNat)

/-- The fraction that `(float)a / (float)b` evaluates to for `b ≠ 0`: both counts are
converted to `float` and the quotient is rounded to `float`. -/
def floatQuotientFrac (a b : Nat) : Nat × Nat :=
  let fa := roundF32 a 1
  let fb := roundF32 b 1
  roundF32 (fa.1 * fb.2) (fa.2 * fb.1)

/-- The value of `(float)a / (float)b` for `b ≠ 0`. -/
def floatQuotient (a b : Nat) : Float32 :=
  ((floatQuotientFrac a b).1 : ℚ) / ((floatQuotientFrac a b).2 : ℚ)

/-- The test `(float)a / (float)b < r`.  With `b = 0` the quotient is NaN or +∞ and the
comparison is false. -/
def ratioBelow (a b : Nat) (r : Float32) : Bool :=
  decide (b ≠ 0 ∧ floatQuotient a b < r)

/-- Round to nearest, ties to even, stated independently of `roundF32`: `v` is the `float`
that a positive real `x` rounds to when `v = m * 2^k` for the exponent `k` with
`2^23 * 2^k ≤ x < 2^24 * 2^k`, the integer `m` is at most one half away from `x / 2^k`, and
`m` is even when it is exactly one half away. -/
def IsNearestFloat (x v : ℚ) : Prop :=
  ∃ (m : Nat) (k : Int), v = (m : ℚ) * (2 : ℚ) ^ k ∧
    8388608 * (2 : ℚ) ^ k ≤ x ∧ x < 16777216 * (2 : ℚ) ^ k ∧
    |x - (m : ℚ) * (2 : ℚ) ^ k| ≤ (2 : ℚ) ^ k / 2 ∧
    (|x - (m : ℚ) * (2 : ℚ) ^ k| = (2 : ℚ) ^ k / 2 → m % 2 = 0)

/-- The statement `src.copyTo(Mat(3, 4, CV_32FC1, pose.val)(roi))`: the region `roi` of the
pose receives the entries of `src`, converted to `float`; the rest of the pose is kept.  A
region that is not of the size of `src`, or not inside the pose, is a fault. -/
def copyTo {h w : Nat} (narrow : Float64 → Float32) (src : Matrix (Fin h) (Fin w) Float64)
    (roi : Rect) (pose : Matx34f) : Option Matx34f :=
  if roi.height = h ∧ roi.width = w ∧ roi.y + roi.height ≤ 3 ∧ roi.x + roi.width ≤ 4 then
    some (fun r c =>
      if hr : roi.y ≤ r.val ∧ r.val - roi.y < h then
        if hc : roi.x ≤ c.val ∧ c.val - roi.x < w then
          narrow (src ⟨r.val - roi.y, hr.2⟩ ⟨c.val - roi.x, hc.2⟩)
        else pose r c
      else pose r c)
  else none

/-- What `solvePnPRansac` returns at its call site in `findCameraPoseFrom2D3DMatch`:
`rvec`, `tvec` and `inliers`. -/
def solvedPose (cv : CvLib) (intrinsics : Intrinsics) (matchSet : Image2D3DMatch) :
    Matx31 × Matx31 × List Int :=
  cv.solvePnPRansac matchSet.points3D matchSet.points2D intrinsics.K
    intrinsics.distortion false 100 RANSAC_THRESHOLD (99 / 100)

/-- The function `SfMStereoUtilities::findCameraPoseFrom2D3DMatch`: the returned `bool`,
the pose on exit (`cameraPose` is the pose on entry) and the calls made.  The constant
`POSE_INLIERS_MINIMAL_RATIO` is declared outside the source file and is a parameter. -/
def findCameraPoseFrom2D3DMatch (cv : CvLib) ( POSE_INLIERS_MINIMAL_RATIO : Float32)
    (intrinsics : Intrinsics) (matchSet : Image2D3DMatch) (cameraPose : Matx34f) :
    Option (Bool × Matx34f × Trace) :=
  let r := cv.solvePnPRansac matchSet.points3D matchSet.points2D intrinsics.K
    intrinsics.distortion false 100 RANSAC_THRESHOLD (99 / 100)
  let rvec := r.1
  let tvec := r.2.1
  let inliers := r.2.2
  let tr : Trace := [Call.solvePnPRansac intrinsics.K intrinsics.distortion]
  if ratioBelow (countNonZero inliers) matchSet.points2D.length POSE_INLIERS_MINIMAL_RATIO then
    some (false, cameraPose, tr)
  else
    let rotMat := cv.Rodrigues rvec
    let tr := tr ++ [Call.Rodrigues]
    match copyTo cv.narrow rotMat ROT cameraPose with
    | none => none
    | some cameraPose =>
      match copyTo cv.narrow tvec TRA cameraPose with
      | none => none
      | some cameraPose => some (true, cameraPose, tr)

/-! ## Sample inputs -/

/-- A sample library: the estimators answer with a fixed model and mark every point as an
inlier, `recoverPose` clears the first mask entry, undistortion shifts each point by the sum
of the distortion coefficients, and the pose solver reports a zero rotation vector, the
translation (5, 5, 5) and `inliers`. -/
def sampleCv (inliers : List Int) : CvLib where
  findHomography src _ _ _ := (some 1, src.map (fun _ => 1))
  findEssentialMat p1 _ _ _ _ _ _ := ([[0, 0, 0], [0, 0, -1], [0, 1, 0]], p1.map (fun _ => 1))
  recoverPose _ _ _ _ _ mask :=
    (1, fun r _ => if r = 0 then 1 else 0,
      List.zipWith (fun i v => if i = 0 then 0 else v) (List.range mask.length) mask)
  undistortPoints src _ dist := src.map (fun p => [p.x - dist.sum, p.y - dist.sum])
  triangulatePoints _ _ a b :=
    (List.zipWith (fun l r => [l.getD 0 0, l.getD 1 0, r.getD 0 0, 1]) a b).transpose
  convertPointsFromHomogeneous m := m.map (fun row => ⟨row.getD 0 0, row.getD 1 0, row.getD 2 0⟩)
  solvePnPRansac _ _ _ _ _ _ _ _ := (0, fun _ _ => 5, inliers)
  Rodrigues _ := 1
  narrow x := x

/-- Five feature points of a left image. -/
def sampleLeft : Features :=
  ⟨[⟨0, 0⟩, ⟨1, 0⟩, ⟨0, 1⟩, ⟨1, 1⟩, ⟨2, 1⟩]⟩

/-- Five feature points of a right image. -/
def sampleRight : Features :=
  ⟨[⟨3, 0⟩, ⟨4, 0⟩, ⟨3, 1⟩, ⟨4, 1⟩, ⟨5, 1⟩]⟩

/-- Two correspondences between the sample images. -/
def sampleMatchingShort : Matching := [⟨0, 1⟩, ⟨2, 0⟩]

/-- Five correspondences between the sample images. -/
def sampleMatching : Matching := [⟨0, 1⟩, ⟨2, 0⟩, ⟨1, 2⟩, ⟨4, 4⟩, ⟨3, 3⟩]

/-- A camera matrix with focal length 2 and principal point (1, 1). -/
def sampleK : Matx33 := !![2, 0, 1; 0, 2, 1; 0, 0, 1]

/-- A calibration with a camera matrix and non-zero distortion coefficients. -/
def sampleIntrinsics : Intrinsics :=
  ⟨some sampleK, [1 / 10, 0, 0, 0]⟩

/-- A calibration whose camera matrix is unset. -/
def emptyIntrinsics : Intrinsics := ⟨none, []⟩

/-- Output parameters holding arbitrary earlier values. -/
def sampleOut : CameraMatrices := ⟨sampleLeft, sampleRight, 0, 0⟩

/-- Four 2D–3D correspondences. -/
def sampleMatchSet : Image2D3DMatch :=
  ⟨[⟨0, 0⟩, ⟨1, 0⟩, ⟨0, 1⟩, ⟨1, 1⟩], [⟨0, 0, 1⟩, ⟨1, 0, 1⟩, ⟨0, 1, 1⟩, ⟨1, 1, 1⟩]⟩

/-- Ten 2D–3D correspondences. -/
def sampleMatchSet10 : Image2D3DMatch :=
  ⟨List.replicate 10 ⟨0, 0⟩, List.replicate 10 ⟨0, 0, 1⟩⟩

/-- A match set of 2^25 + 2 correspondences. -/
def sampleMatchSetLarge : Image2D3DMatch :=
  ⟨List.replicate 33554434 ⟨0, 0⟩, List.replicate 33554434 ⟨0, 0, 1⟩⟩

/-- A cloud that already holds one map point. -/
def sampleCloud : PointCloud := [⟨⟨9, 9, 9⟩, [(5, 3)]⟩]

/-! ## Facts about the helpers -/

theorem pointAt_of_inRange (pts : List Point2f) (i : Int) (h0 : 0 ≤ i)
    (h1 : i < pts.length) : ∃ p, pointAt pts i = some p := by
  have hlt : i.toNat < pts.length := by omega
  refine ⟨pts[i.toNat], ?_⟩
  unfold pointAt
  rw [if_neg (by omega)]
  exact List.getElem?_eq_getElem hlt

/-- Whenever the alignment helper succeeds, its four outputs have one entry per
correspondence, in order: the aligned points are the dereferenced features and the back
references are the indices of the correspondences. -/
theorem getAligned_spec (L R : Features) :
    ∀ (ms : Matching) (aL aR : Features) (lb rb : List Int),
      GetAlignedPointsFromMatch L R ms = some (aL, aR, lb, rb) →
      aL.points.map some = ms.map (fun m => pointAt L.points m.queryIdx) ∧
      aR.points.map some = ms.map (fun m => pointAt R.points m.trainIdx) ∧
      lb = ms.map DMatch.queryIdx ∧ rb = ms.map DMatch.trainIdx := by
  intro ms
  induction ms with
  | nil =>
    intro aL aR lb rb h
    simp only [GetAlignedPointsFromMatch, Option.some.injEq, Prod.mk.injEq] at h
    obtain ⟨rfl, rfl, rfl, rfl⟩ := h
    simp
  | cons m ms ih =>
    intro aL aR lb rb h
    unfold GetAlignedPointsFromMatch at h
    split at h
    · rename_i l r aL0 aR0 lb0 rb0 hl hr hrec
      simp only [Option.some.injEq, Prod.mk.injEq] at h
      obtain ⟨rfl, rfl, rfl, rfl⟩ := h
      obtain ⟨h1, h2, h3, h4⟩ := ih aL0 aR0 lb0 rb0 hrec
      simp [h1, h2, h3, h4, hl, hr]
    · exact absurd h (by simp)

/-- On a correspondence list whose indices are in range the alignment helper succeeds. -/
theorem getAligned_of_inRange (L R : Features) :
    ∀ (ms : Matching), MatchesInRange L R ms →
      ∃ aL aR lb rb, GetAlignedPointsFromMatch L R ms = some (aL, aR, lb, rb) := by
  intro ms
  induction ms with
  | nil => intro _; exact ⟨_, _, _, _, rfl⟩
  | cons m ms ih =>
    intro h
    have hm := h m (List.mem_cons_self _ _)
    obtain ⟨aL, aR, lb, rb, hrec⟩ := ih (fun x hx => h x (List.mem_cons_of_mem _ hx))
    obtain ⟨l, hl⟩ := pointAt_of_inRange L.points m.queryIdx hm.1.1 hm.1.2
    obtain ⟨r, hr⟩ := pointAt_of_inRange R.points m.trainIdx hm.2.1 hm.2.2
    refine ⟨⟨l :: aL.points⟩, ⟨r :: aR.points⟩, m.queryIdx :: lb, m.trainIdx :: rb, ?_⟩
    unfold GetAlignedPointsFromMatch
    rw [hl, hr, hrec]

theorem getAligned_lengths (L R : Features) (ms : Matching) (aL aR : Features)
    (lb rb : List Int) (h : GetAlignedPointsFromMatch L R ms = some (aL, aR, lb, rb)) :
    aL.points.length = ms.length ∧ aR.points.length = ms.length ∧
      lb.length = ms.length ∧ rb.length = ms.length := by
  obtain ⟨h1, h2, h3, h4⟩ := getAligned_spec L R ms aL aR lb rb h
  refine ⟨?_, ?_, ?_, ?_⟩
  · simpa using congrArg List.length h1
  · simpa using congrArg List.length h2
  · simp [h3]
  · simp [h4]

theorem countNonZero_le {α : Type} [Zero α] [DecidableEq α] (m : List α) :
    countNonZero m ≤ m.length :=
  List.length_filter_le _ _

theorem countNonZero_replicate (n : Nat) (v : Int) (hv : v ≠ 0) :
    countNonZero (List.replicate n v) = n := by
  induction n with
  | zero => rfl
  | succ n ih =>
    simp only [countNonZero] at ih ⊢
    rw [List.replicate_succ, List.filter_cons_of_pos (by simpa using hv), List.length_cons, ih]

theorem maskFilter_nil_left {α : Type} (mask : Mask) : maskFilter ([] : List α) mask = [] := by
  simp [maskFilter]

theorem maskFilter_nil_right {α : Type} (xs : List α) : maskFilter xs [] = [] := by
  simp [maskFilter]

theorem maskFilter_cons {α : Type} (x : α) (xs : List α) (v : Nat) (mask : Mask) :
    maskFilter (x :: xs) (v :: mask) =
      if v ≠ 0 then x :: maskFilter xs mask else maskFilter xs mask := by
  by_cases hv : v = 0 <;> simp [maskFilter, List.filter_cons, hv]

/-- Filtering two parallel sequences by one mask keeps them parallel. -/
theorem maskFilter_map {α β γ : Type} (f : α → γ) (g : β → γ) :
    ∀ (xs : List α) (ys : List β) (mask : Mask), xs.map f = ys.map g →
      (maskFilter xs mask).map f = (maskFilter ys mask).map g := by
  intro xs
  induction xs with
  | nil =>
    intro ys mask h
    cases ys with
    | nil => simp [maskFilter_nil_left]
    | cons y ys => simp at h
  | cons x xs ih =>
    intro ys mask h
    cases ys with
    | nil => simp at h
    | cons y ys =>
      simp only [List.map_cons, List.cons.injEq] at h
      cases mask with
      | nil => simp [maskFilter_nil_right]
      | cons v mask =>
        rw [maskFilter_cons, maskFilter_cons]
        by_cases hv : v = 0
        · simpa [hv] using ih ys mask h.2
        · simpa [hv, h.1] using ih ys mask h.2

theorem maskFilter_sublist {α : Type} :
    ∀ (xs : List α) (mask : Mask), (maskFilter xs mask).Sublist xs := by
  intro xs
  induction xs with
  | nil => intro mask; simp [maskFilter_nil_left]
  | cons x xs ih =>
    intro mask
    cases mask with
    | nil => simp [maskFilter_nil_right]
    | cons v mask =>
      rw [maskFilter_cons]
      by_cases hv : v = 0
      · simpa [hv] using (ih mask).cons x
      · simpa [hv] using (ih mask).cons₂ x

theorem maskFilter_length {α : Type} :
    ∀ (xs : List α) (mask : Mask), mask.length ≤ xs.length →
      (maskFilter xs mask).length = countNonZero mask := by
  intro xs
  induction xs with
  | nil =>
    intro mask h
    cases mask with
    | nil => simp [maskFilter_nil_left, countNonZero]
    | cons v mask => simp at h
  | cons x xs ih =>
    intro mask h
    cases mask with
    | nil => simp [maskFilter_nil_right, countNonZero]
    | cons v mask =>
      have h2 : mask.length ≤ xs.length := by simpa using h
      rw [maskFilter_cons]
      by_cases hv : v = 0
      · simpa [hv, countNonZero, List.filter_cons] using ih mask h2
      · simpa [hv, countNonZero, List.filter_cons] using ih mask h2

theorem assign_distinct (l r : Nat) (a b : Int) (h : l ≠ r) :
    (OriginatingViews.assign (OriginatingViews.assign [] l a) r b).length = 2 ∧
    (OriginatingViews.assign (OriginatingViews.assign [] l a) r b).lookup l = some a ∧
    (OriginatingViews.assign (OriginatingViews.assign [] l a) r b).lookup r = some b := by
  have h2 : r ≠ l := fun e => h e.symm
  have e1 : (l == r) = false := by simpa using h
  have e2 : (r == l) = false := by simpa using h2
  by_cases hlt : r < l
  · simp [OriginatingViews.assign, hlt, List.lookup, h, h2, e1]
  · simp [OriginatingViews.assign, hlt, List.lookup, h, h2, e2]

theorem assign_lookup_right (l r : Nat) (a b : Int) :
    (OriginatingViews.assign (OriginatingViews.assign [] l a) r b).lookup r = some b := by
  by_cases h : l = r
  · subst h
    simp [OriginatingViews.assign, List.lookup]
  · exact (assign_distinct l r a b h).2.2

theorem assign_same (l : Nat) (a b : Int) :
    OriginatingViews.assign (OriginatingViews.assign [] l a) l b = [(l, b)] := by
  simp [OriginatingViews.assign]

/-- The loop of `triangulateViews` in closed form: when the back references are those of
the correspondence list and the rows do not outnumber the correspondences from index `i`
on, every read is in range and row `i + j` is appended as the map point of
correspondence `i + j`. -/
theorem appendPoints_eq (imagePair : ImagePair) (ms : Matching) :
    ∀ (rows : List Point3f) (i : Nat) (cloud : PointCloud), rows.length + i ≤ ms.length →
      appendPoints imagePair (ms.map DMatch.queryIdx) (ms.map DMatch.trainIdx) rows i cloud =
        some (cloud ++ List.zipWith
          (fun row m => mapPoint imagePair row m.queryIdx m.trainIdx) rows (ms.drop i)) := by
  intro rows
  induction rows with
  | nil => intro i cloud _; simp [appendPoints]
  | cons row rest ih =>
    intro i cloud h
    have hi : i < ms.length := by simp only [List.length_cons] at h; omega
    have hd : ms.drop i = ms[i] :: ms.drop (i + 1) := List.drop_eq_getElem_cons hi
    unfold appendPoints
    simp only [List.getElem?_map, List.getElem?_eq_getElem hi, Option.map_some']
    rw [ih (i + 1) _ (by simp only [List.length_cons] at h; omega), hd]
    simp only [List.zipWith_cons_cons, List.append_assoc, List.singleton_append]

/-- The successful run of `triangulateViews` in closed form. -/
theorem triangulateViews_eq (cv : CvLib) (intrinsics : Intrinsics) (imagePair : ImagePair)
    (matching : Matching) (featuresLeft featuresRight : Features) (Pleft Pright : Matx34f)
    (pointCloud : PointCloud) (aL aR : Features) (lb rb : List Int)
    (hal : GetAlignedPointsFromMatch featuresLeft featuresRight matching =
      some (aL, aR, lb, rb))
    (hrows : (triangulated cv intrinsics Pleft Pright aL aR).length ≤ matching.length) :
    triangulateViews cv intrinsics imagePair matching featuresLeft featuresRight Pleft Pright
        pointCloud =
      some (true,
        pointCloud ++ List.zipWith (fun row m => mapPoint imagePair row m.queryIdx m.trainIdx)
          (triangulated cv intrinsics Pleft Pright aL aR) matching,
        [Call.GetAlignedPointsFromMatch,
         Call.undistortPoints intrinsics.K [], Call.undistortPoints intrinsics.K [],
         Call.triangulatePoints, Call.convertPointsFromHomogeneous]) := by
  obtain ⟨-, -, h3, h4⟩ := getAligned_spec featuresLeft featuresRight matching aL aR lb rb hal
  unfold triangulateViews
  simp only [hal]
  rw [h3, h4, appendPoints_eq imagePair matching _ 0 pointCloud (by omega)]
  simp

/-- Copying a 3×3 matrix into the region `ROT` overwrites columns 0..2 of the pose. -/
theorem copyTo_ROT (narrow : Float64 → Float32) (R : Matx33) (pose : Matx34f) :
    copyTo narrow R ROT pose =
      some (fun r c => if h : c.val < 3 then narrow (R r ⟨c.val, h⟩) else pose r c) := by
  have c1 : ROT.height = 3 ∧ ROT.width = 3 ∧ ROT.y + ROT.height ≤ 3 ∧ ROT.x + ROT.width ≤ 4 := by
    decide
  rw [copyTo, if_pos c1]
  congr 1
  funext r c
  fin_cases r <;> fin_cases c <;> rfl

/-- Copying a 3×1 column into the region `TRA` overwrites column 3 of the pose. -/
theorem copyTo_TRA (narrow : Float64 → Float32) (t : Matx31) (pose : Matx34f) :
    copyTo narrow t TRA pose =
      some (fun r c => if c.val = 3 then narrow (t r 0) else pose r c) := by
  have c1 : TRA.height = 3 ∧ TRA.width = 1 ∧ TRA.y + TRA.height ≤ 3 ∧ TRA.x + TRA.width ≤ 4 := by
    decide
  rw [copyTo, if_pos c1]
  congr 1
  funext r c
  fin_cases r <;> fin_cases c <;> rfl

/-- The accepting path of `findCameraPoseFrom2D3DMatch` in closed form. -/
theorem findCameraPoseFrom2D3DMatch_eq (cv : CvLib) (ratio : Float32)
    (intrinsics : Intrinsics) (matchSet : Image2D3DMatch) (cameraPose : Matx34f)
    (hacc : ratioBelow (countNonZero (solvedPose cv intrinsics matchSet).2.2)
      matchSet.points2D.length ratio = false) :
    findCameraPoseFrom2D3DMatch cv ratio intrinsics matchSet cameraPose =
      some (true,
        (fun r c =>
          if c.val = 3 then cv.narrow ((solvedPose cv intrinsics matchSet).2.1 r 0)
          else if h : c.val < 3 then
            cv.narrow (cv.Rodrigues (solvedPose cv intrinsics matchSet).1 r ⟨c.val, h⟩)
          else cameraPose r c),
        [Call.solvePnPRansac intrinsics.K intrinsics.distortion, Call.Rodrigues]) := by
  unfold solvedPose at hacc
  unfold findCameraPoseFrom2D3DMatch
  simp only [hacc, copyTo_ROT, copyTo_TRA, solvedPose]
  rfl

/-- The rejecting path of `findCameraPoseFrom2D3DMatch` in closed form. -/
theorem findCameraPoseFrom2D3DMatch_reject_eq (cv : CvLib) (ratio : Float32)
    (intrinsics : Intrinsics) (matchSet : Image2D3DMatch) (cameraPose : Matx34f)
    (hrej : ratioBelow (countNonZero (solvedPose cv intrinsics matchSet).2.2)
      matchSet.points2D.length ratio = true) :
    findCameraPoseFrom2D3DMatch cv ratio intrinsics matchSet cameraPose =
      some (false, cameraPose, [Call.solvePnPRansac intrinsics.K intrinsics.distortion]) := by
  unfold solvedPose at hrej
  unfold findCameraPoseFrom2D3DMatch
  simp only [hrej]
  rfl

/-- One non-zero inlier entry among the four sample correspondences: the single-precision
quotient 1/4 is below the ratio 1/2. -/
theorem sample_ratio_low :
    floatQuotient (countNonZero (solvedPose (sampleCv [1]) sampleIntrinsics sampleMatchSet).2.2)
      sampleMatchSet.points2D.length < 1 / 2 := by
  have e1 : countNonZero (solvedPose (sampleCv [1]) sampleIntrinsics sampleMatchSet).2.2 = 1 := by
    decide
  have e2 : sampleMatchSet.points2D.length = 4 := by decide
  have e3 : floatQuotientFrac 1 4 = (8388608, 33554432) := by decide
  rw [e1, e2, floatQuotient, e3]
  norm_num

/-- Three non-zero inlier entries among the four sample correspondences are not below the
ratio 1/2. -/
theorem sample_ratio_ok :
    ratioBelow (countNonZero (solvedPose (sampleCv [1, 2, 3]) sampleIntrinsics
      sampleMatchSet).2.2) sampleMatchSet.points2D.length (1 / 2) = false := by
  have e1 : countNonZero (solvedPose (sampleCv [1, 2, 3]) sampleIntrinsics
      sampleMatchSet).2.2 = 3 := by decide
  have e2 : sampleMatchSet.points2D.length = 4 := by decide
  have e3 : floatQuotientFrac 3 4 = (12582912, 16777216) := by decide
  rw [e1, e2]
  simp only [ratioBelow, floatQuotient, e3, decide_eq_false_iff_not]
  norm_num

/-! ## Facts about the single-precision quotient -/

/-- Scaling up: when the fraction is at least `2^23` and `u` doublings of the denominator
bring it below `2^24`, `normalize` ends in `[2^23, 2^24)` and keeps the value. -/
theorem normalize_up : ∀ (u fuel num den : Nat) (k : Int), 0 < den →
    8388608 * den ≤ num → num < 16777216 * den * 2 ^ u → u ≤ fuel →
    8388608 * (normalize fuel num den k).2.1 ≤ (normalize fuel num den k).1 ∧
    (normalize fuel num den k).1 < 16777216 * (normalize fuel num den k).2.1 ∧
    0 < (normalize fuel num den k).2.1 ∧
    ((normalize fuel num den k).1 : ℚ) / ((normalize fuel num den k).2.1 : ℚ) *
        (2 : ℚ) ^ (normalize fuel num den k).2.2 = (num : ℚ) / (den : ℚ) * (2 : ℚ) ^ k := by
  intro u
  induction u with
  | zero =>
    intro fuel num den k hd hlo hhi _
    have hhi2 : num < 16777216 * den := by simpa using hhi
    cases fuel with
    | zero => exact ⟨hlo, hhi2, hd, rfl⟩
    | succ fuel =>
      unfold normalize
      rw [if_neg (by omega), if_neg (by omega)]
      exact ⟨hlo, hhi2, hd, rfl⟩
  | succ u ih =>
    intro fuel num den k hd hlo hhi hfuel
    cases fuel with
    | zero => omega
    | succ fuel =>
      unfold normalize
      by_cases hup : 16777216 * den ≤ num
      · rw [if_pos hup]
        have h1 : 8388608 * (2 * den) ≤ num := by omega
        have h2 : num < 16777216 * (2 * den) * 2 ^ u := by
          have e : 16777216 * (2 * den) * 2 ^ u = 16777216 * den * 2 ^ (u + 1) := by ring
          omega
        obtain ⟨a, b, c, d⟩ := ih fuel num (2 * den) (k + 1) (by omega) h1 h2 (by omega)
        refine ⟨a, b, c, ?_⟩
        rw [d]
        have hd0 : (den : ℚ) ≠ 0 := by exact_mod_cast (Nat.pos_iff_ne_zero.mp hd)
        rw [zpow_add_one₀ (by norm_num : (2 : ℚ) ≠ 0)]
        push_cast
        field_simp
        ring
      · rw [if_neg hup, if_neg (by omega)]
        exact ⟨hlo, (by omega : num < 16777216 * den), hd, rfl⟩

/-- Scaling down: when the fraction is below `2^24` and `v` doublings of the numerator bring
it to at least `2^23`, `normalize` ends in `[2^23, 2^24)` and keeps the value. -/
theorem normalize_down : ∀ (v fuel num den : Nat) (k : Int), 0 < den →
    num < 16777216 * den → 8388608 * den ≤ num * 2 ^ v → v ≤ fuel →
    8388608 * (normalize fuel num den k).2.1 ≤ (normalize fuel num den k).1 ∧
    (normalize fuel num den k).1 < 16777216 * (normalize fuel num den k).2.1 ∧
    0 < (normalize fuel num den k).2.1 ∧
    ((normalize fuel num den k).1 : ℚ) / ((normalize fuel num den k).2.1 : ℚ) *
        (2 : ℚ) ^ (normalize fuel num den k).2.2 = (num : ℚ) / (den : ℚ) * (2 : ℚ) ^ k := by
  intro v
  induction v with
  | zero =>
    intro fuel num den k hd hhi hlo _
    have hlo2 : 8388608 * den ≤ num := by simpa using hlo
    cases fuel with
    | zero => exact ⟨hlo2, hhi, hd, rfl⟩
    | succ fuel =>
      unfold normalize
      rw [if_neg (by omega), if_neg (by omega)]
      exact ⟨hlo2, hhi, hd, rfl⟩
  | succ v ih =>
    intro fuel num den k hd hhi hlo hfuel
    cases fuel with
    | zero => omega
    | succ fuel =>
      unfold normalize
      rw [if_neg (by omega)]
      by_cases hdown : num < 8388608 * den
      · rw [if_pos hdown]
        have h2 : 8388608 * den ≤ 2 * num * 2 ^ v := by
          have e : 2 * num * 2 ^ v = num * 2 ^ (v + 1) := by ring
          omega
        obtain ⟨a, b, c, d⟩ := ih fuel (2 * num) den (k - 1) hd (by omega) h2 (by omega)
        refine ⟨a, b, c, ?_⟩
        rw [d]
        have hd0 : (den : ℚ) ≠ 0 := by exact_mod_cast (Nat.pos_iff_ne_zero.mp hd)
        rw [zpow_sub_one₀ (by norm_num : (2 : ℚ) ≠ 0)]
        push_cast
        field_simp
        ring
      · rw [if_neg hdown]
        exact ⟨(by omega : 8388608 * den ≤ num), hhi, hd, rfl⟩

/-- The step bound that `roundF32` gives `normalize` always suffices: a positive fraction
is brought into `[2^23, 2^24)` with its value kept. -/
theorem normalize_spec (num den : Nat) (hn : 0 < num) (hd : 0 < den) :
    8388608 * (normalize (num + den + 24) num den 0).2.1 ≤
      (normalize (num + den + 24) num den 0).1 ∧
    (normalize (num + den + 24) num den 0).1 <
      16777216 * (normalize (num + den + 24) num den 0).2.1 ∧
    0 < (normalize (num + den + 24) num den 0).2.1 ∧
    ((normalize (num + den + 24) num den 0).1 : ℚ) /
        ((normalize (num + den + 24) num den 0).2.1 : ℚ) *
        (2 : ℚ) ^ (normalize (num + den + 24) num den 0).2.2 = (num : ℚ) / (den : ℚ) := by
  have key : ∀ fuel, num + den + 24 ≤ fuel →
      8388608 * (normalize fuel num den 0).2.1 ≤ (normalize fuel num den 0).1 ∧
      (normalize fuel num den 0).1 < 16777216 * (normalize fuel num den 0).2.1 ∧
      0 < (normalize fuel num den 0).2.1 ∧
      ((normalize fuel num den 0).1 : ℚ) / ((normalize fuel num den 0).2.1 : ℚ) *
        (2 : ℚ) ^ (normalize fuel num den 0).2.2 = (num : ℚ) / (den : ℚ) * (2 : ℚ) ^ (0 : Int) := by
    intro fuel hfuel
    by_cases hlo : 8388608 * den ≤ num
    · apply normalize_up num fuel num den 0 hd hlo _ (by omega)
      have h1 : num < 2 ^ num := Nat.lt_two_pow num
      calc num < 2 ^ num := h1
        _ = 1 * 1 * 2 ^ num := by ring
        _ ≤ 16777216 * den * 2 ^ num := by
          apply Nat.mul_le_mul_right
          exact Nat.mul_le_mul (by norm_num) hd
    · apply normalize_down (den + 23) fuel num den 0 hd (by omega) _ (by omega)
      have h1 : den < 2 ^ den := Nat.lt_two_pow den
      calc 8388608 * den ≤ 8388608 * 2 ^ den := Nat.mul_le_mul_left _ (le_of_lt h1)
        _ = 1 * 2 ^ (den + 23) := by rw [pow_add]; ring
        _ ≤ num * 2 ^ (den + 23) := Nat.mul_le_mul_right _ hn
  simpa using key (num + den + 24) (le_refl _)

/-- The rounded integer is within one half of the fraction, and in a tie it is even. -/
theorem roundNearestEven_spec (n d : Nat) (hd : 0 < d) :
    |(n : ℚ) / (d : ℚ) - (roundNearestEven n d : ℚ)| ≤ 1 / 2 ∧
    (|(n : ℚ) / (d : ℚ) - (roundNearestEven n d : ℚ)| = 1 / 2 →
      roundNearestEven n d % 2 = 0) := by
  have hdq : (0 : ℚ) < (d : ℚ) := by exact_mod_cast hd
  have hmod : n % d < d := Nat.mod_lt n hd
  have hsum : (n : ℚ) = (d : ℚ) * ((n / d : ℕ) : ℚ) + ((n % d : ℕ) : ℚ) := by
    exact_mod_cast (Nat.div_add_mod n d).symm
  have hnd : (n : ℚ) / (d : ℚ) = ((n / d : ℕ) : ℚ) + ((n % d : ℕ) : ℚ) / (d : ℚ) := by
    rw [hsum]
    field_simp
    ring
  have hx0 : (0 : ℚ) ≤ ((n % d : ℕ) : ℚ) / (d : ℚ) := by positivity
  unfold roundNearestEven
  simp only []
  by_cases h1 : 2 * (n % d) < d
  · have hx : ((n % d : ℕ) : ℚ) / (d : ℚ) < 1 / 2 := by
      rw [div_lt_iff₀ hdq]
      have : ((2 * (n % d) : ℕ) : ℚ) < (d : ℚ) := by exact_mod_cast h1
      push_cast at this
      linarith
    rw [if_pos h1, hnd, add_sub_cancel_left, abs_of_nonneg hx0]
    exact ⟨le_of_lt hx, fun h => absurd h (ne_of_lt hx)⟩
  · rw [if_neg h1]
    by_cases h2 : d < 2 * (n % d)
    · have hx : 1 / 2 < ((n % d : ℕ) : ℚ) / (d : ℚ) := by
        rw [lt_div_iff₀ hdq]
        have : (d : ℚ) < ((2 * (n % d) : ℕ) : ℚ) := by exact_mod_cast h2
        push_cast at this
        linarith
      have hx1 : ((n % d : ℕ) : ℚ) / (d : ℚ) < 1 := by
        rw [div_lt_one hdq]
        exact_mod_cast hmod
      have e : ((n / d : ℕ) : ℚ) + ((n % d : ℕ) : ℚ) / (d : ℚ) - ((n / d + 1 : ℕ) : ℚ) =
          -(1 - ((n % d : ℕ) : ℚ) / (d : ℚ)) := by
        push_cast
        ring
      rw [if_pos h2, hnd, e, abs_neg, abs_of_nonneg (by linarith)]
      exact ⟨by linarith, fun h => absurd h (by intro h3; linarith)⟩
    · have h3 : 2 * (n % d) = d := by omega
      have hx : ((n % d : ℕ) : ℚ) / (d : ℚ) = 1 / 2 := by
        rw [div_eq_iff (ne_of_gt hdq)]
        have : ((2 * (n % d) : ℕ) : ℚ) = (d : ℚ) := by exact_mod_cast h3
        push_cast at this
        linarith
      rw [if_neg h2, hnd, hx]
      rcases Nat.mod_two_eq_zero_or_one (n / d) with h4 | h4
      · rw [h4, Nat.add_zero, add_sub_cancel_left]
        exact ⟨by norm_num [abs_of_pos], fun _ => h4⟩
      · rw [h4]
        have e : ((n / d : ℕ) : ℚ) + 1 / 2 - ((n / d + 1 : ℕ) : ℚ) = -(1 / 2) := by
          push_cast
          ring
        rw [e]
        exact ⟨by norm_num [abs_of_pos], fun _ => by omega⟩

/-- What `roundF32` computes: for a positive fraction the result is the `float` the
fraction rounds to (round to nearest, ties to even), and both components of the result are
positive. -/
theorem roundF32_spec (num den : Nat) (hn : 0 < num) (hd : 0 < den) :
    IsNearestFloat ((num : ℚ) / (den : ℚ))
      (((roundF32 num den).1 : ℚ) / ((roundF32 num den).2 : ℚ)) ∧
    0 < (roundF32 num den).1 ∧ 0 < (roundF32 num den).2 := by
  obtain ⟨hlo, hhi, hd2, hval⟩ := normalize_spec num den hn hd
  generalize hr : normalize (num + den + 24) num den 0 = r at hlo hhi hd2 hval
  obtain ⟨n, d, k⟩ := r
  simp only at hlo hhi hd2 hval
  obtain ⟨hm1, hm2⟩ := roundNearestEven_spec n d hd2
  have hdq : (0 : ℚ) < (d : ℚ) := by exact_mod_cast hd2
  have hpow : (0 : ℚ) < (2 : ℚ) ^ k := zpow_pos (by norm_num) k
  have hfrac_lo : (8388608 : ℚ) ≤ (n : ℚ) / (d : ℚ) := by
    rw [le_div_iff₀ hdq]
    exact_mod_cast hlo
  have hfrac_hi : (n : ℚ) / (d : ℚ) < 16777216 := by
    rw [div_lt_iff₀ hdq]
    exact_mod_cast hhi
  have habs := abs_le.mp hm1
  have hdist : |(num : ℚ) / (den : ℚ) - (roundNearestEven n d : ℚ) * (2 : ℚ) ^ k| =
      |(n : ℚ) / (d : ℚ) - (roundNearestEven n d : ℚ)| * (2 : ℚ) ^ k := by
    rw [← hval, ← sub_mul, abs_mul, abs_of_pos hpow]
  have hmpos : 0 < roundNearestEven n d := by
    by_contra hlt
    have h1 : roundNearestEven n d = 0 := by omega
    rw [h1] at habs
    norm_num at habs
    linarith [habs.2]
  have hres : roundF32 num den =
      if 0 ≤ k then (roundNearestEven n d * 2 ^ k.toNat, 1)
      else (roundNearestEven n d, 2 ^ (-k).toNat) := by
    unfold roundF32
    rw [if_neg (by omega), hr]
  refine ⟨⟨roundNearestEven n d, k, ?_, ?_, ?_, ?_, ?_⟩, ?_, ?_⟩
  · rw [hres]
    by_cases hk : 0 ≤ k
    · rw [if_pos hk]
      have e : (2 : ℚ) ^ k = (2 : ℚ) ^ k.toNat := by
        rw [← zpow_natCast, Int.toNat_of_nonneg hk]
      rw [e]
      push_cast
      simp
    · rw [if_neg hk]
      have e : (2 : ℚ) ^ k = ((2 : ℚ) ^ (-k).toNat)⁻¹ := by
        rw [← zpow_natCast, Int.toNat_of_nonneg (by omega), zpow_neg, inv_inv]
      rw [e]
      push_cast
      rw [div_eq_mul_inv]
  · rw [← hval]
    exact mul_le_mul_of_nonneg_right hfrac_lo (le_of_lt hpow)
  · rw [← hval]
    exact mul_lt_mul_of_pos_right hfrac_hi hpow
  · rw [hdist]
    have := mul_le_mul_of_nonneg_right hm1 (le_of_lt hpow)
    linarith
  · intro h
    rw [hdist] at h
    apply hm2
    have h3 : |(n : ℚ) / (d : ℚ) - (roundNearestEven n d : ℚ)| * (2 : ℚ) ^ k =
        1 / 2 * (2 : ℚ) ^ k := by rw [h]; ring
    exact mul_right_cancel₀ (ne_of_gt hpow) h3
  · rw [hres]
    by_cases hk : 0 ≤ k
    · rw [if_pos hk]
      exact Nat.mul_pos hmpos (Nat.pow_pos (by norm_num))
    · rw [if_neg hk]
      exact hmpos
  · rw [hres]
    by_cases hk : 0 ≤ k
    · rw [if_pos hk]
      exact Nat.one_pos
    · rw [if_neg hk]
      exact Nat.pow_pos (by norm_num)

/-- What `floatQuotient` computes for positive counts: each count is rounded to `float` and
the quotient of the two rounded counts is rounded to `float`. -/
theorem floatQuotient_spec (a b : Nat) (ha : 0 < a) (hb : 0 < b) :
    ∃ fa fb : ℚ, IsNearestFloat (a : ℚ) fa ∧ IsNearestFloat (b : ℚ) fb ∧
      IsNearestFloat (fa / fb) (floatQuotient a b) := by
  obtain ⟨ha1, ha2, ha3⟩ := roundF32_spec a 1 ha Nat.one_pos
  obtain ⟨hb1, hb2, hb3⟩ := roundF32_spec b 1 hb Nat.one_pos
  obtain ⟨hq, -, -⟩ := roundF32_spec ((roundF32 a 1).1 * (roundF32 b 1).2)
    ((roundF32 a 1).2 * (roundF32 b 1).1) (Nat.mul_pos ha2 hb3) (Nat.mul_pos ha3 hb2)
  refine ⟨((roundF32 a 1).1 : ℚ) / ((roundF32 a 1).2 : ℚ),
    ((roundF32 b 1).1 : ℚ) / ((roundF32 b 1).2 : ℚ), by simpa using ha1, by simpa using hb1, ?_⟩
  have e : (((roundF32 a 1).1 * (roundF32 b 1).2 : ℕ) : ℚ) /
      (((roundF32 a 1).2 * (roundF32 b 1).1 : ℕ) : ℚ) =
      ((roundF32 a 1).1 : ℚ) / ((roundF32 a 1).2 : ℚ) /
        (((roundF32 b 1).1 : ℚ) / ((roundF32 b 1).2 : ℚ)) := by
    have h1 : ((roundF32 a 1).2 : ℚ) ≠ 0 := by exact_mod_cast (Nat.pos_iff_ne_zero.mp ha3)
    have h2 : ((roundF32 b 1).1 : ℚ) ≠ 0 := by exact_mod_cast (Nat.pos_iff_ne_zero.mp hb2)
    have h3 : ((roundF32 b 1).2 : ℚ) ≠ 0 := by exact_mod_cast (Nat.pos_iff_ne_zero.mp hb3)
    push_cast
    field_simp
  rw [← e]
  exact hq

/-- The quotient of no inliers is zero. -/
theorem floatQuotient_zero (b : Nat) : floatQuotient 0 b = 0 := by
  simp [floatQuotient, floatQuotientFrac, roundF32]

/-! ## Claims -/

/-- C1: on a correspondence list with fewer than 4 entries `findHomographyInliers` returns
0 and `findHomography` is never invoked.  Whatever the function returns is 0 and the only
call made is the one to the alignment helper; it does return when the indices are in range
(the precondition of the alignment helper); and the outcome is the same whatever the
estimators would have answered. -/
theorem findHomographyInliers_few (cv : CvLib) (left right : Features) (matching : Matching)
    (hlen : matching.length < 4) :
    (∀ n tr, findHomographyInliers cv left right matching = some (n, tr) →
      n = 0 ∧ tr = [Call.GetAlignedPointsFromMatch] ∧ ∀ c ∈ tr, c.isEstimator = false) ∧
    (MatchesInRange left right matching →
      findHomographyInliers cv left right matching =
        some (0, [Call.GetAlignedPointsFromMatch])) ∧
    ∀ cv2 : CvLib, findHomographyInliers cv2 left right matching =
      findHomographyInliers cv left right matching := by
  have h4 : ¬ 4 ≤ matching.length := by omega
  have key : ∀ cv0 : CvLib, findHomographyInliers cv0 left right matching =
      (GetAlignedPointsFromMatch left right matching).map
        (fun _ => ((0 : Int), [Call.GetAlignedPointsFromMatch])) := by
    intro cv0
    unfold findHomographyInliers
    cases GetAlignedPointsFromMatch left right matching with
    | none => rfl
    | some a =>
      obtain ⟨aL, aR, lb, rb⟩ := a
      simp [h4, hlen]
  refine ⟨?_, ?_, fun cv2 => by rw [key cv2, key cv]⟩
  · intro n tr h
    rw [key cv] at h
    cases hG : GetAlignedPointsFromMatch left right matching with
    | none => simp [hG] at h
    | some a =>
      simp only [hG, Option.map_some', Option.some.injEq, Prod.mk.injEq] at h
      obtain ⟨rfl, rfl⟩ := h
      refine ⟨rfl, rfl, ?_⟩
      intro c hc
      simp only [List.mem_singleton] at hc
      subst hc
      rfl
  · intro hr
    obtain ⟨aL, aR, lb, rb, hal⟩ := getAligned_of_inRange left right matching hr
    rw [key cv, hal]
    rfl

/-- Witness of C1 on two correspondences. -/
theorem findHomographyInliers_few_witness :
    sampleMatchingShort.length < 4 ∧ MatchesInRange sampleLeft sampleRight sampleMatchingShort ∧
    findHomographyInliers (sampleCv []) sampleLeft sampleRight sampleMatchingShort =
      some (0, [Call.GetAlignedPointsFromMatch]) :=
  ⟨by decide, by decide,
    (findHomographyInliers_few (sampleCv []) sampleLeft sampleRight sampleMatchingShort
      (by decide)).2.1 (by decide)⟩

/-- C2: with an empty calibration matrix `findCameraMatricesFromMatch` returns false, the
four outputs keep the values they had on entry, and no call at all is made: neither the
alignment helper nor an estimator is invoked. -/
theorem findCameraMatricesFromMatch_empty_K (cv : CvLib) (intrinsics : Intrinsics)
    (matching : Matching) (featuresLeft featuresRight : Features) (out : CameraMatrices)
    (hK : intrinsics.K = none) :
    findCameraMatricesFromMatch cv intrinsics matching featuresLeft featuresRight out =
      some (false, out, []) := by
  unfold findCameraMatricesFromMatch
  rw [hK]

/-- Witness of C2 on the calibration without camera matrix. -/
theorem findCameraMatricesFromMatch_empty_K_witness :
    emptyIntrinsics.K = none ∧
    findCameraMatricesFromMatch (sampleCv []) emptyIntrinsics sampleMatching sampleLeft
      sampleRight sampleOut = some (false, sampleOut, []) :=
  ⟨rfl, findCameraMatricesFromMatch_empty_K (sampleCv []) emptyIntrinsics sampleMatching
    sampleLeft sampleRight sampleOut rfl⟩

/-- C7: on a correspondence list with at least 4 entries (indices in range)
`findHomographyInliers` calls the estimator on the aligned points; it returns 0 when the
model is empty and the number of non-zero entries of the estimator's inlier mask otherwise;
when that mask has one entry per correspondence the result lies between 0 and the number of
correspondences. -/
theorem findHomographyInliers_count (cv : CvLib) (left right : Features) (matching : Matching)
    (hlen : 4 ≤ matching.length) (hr : MatchesInRange left right matching) :
    ∃ aL aR lb rb, GetAlignedPointsFromMatch left right matching = some (aL, aR, lb, rb) ∧
      ((cv.findHomography aL.points aR.points RANSAC RANSAC_THRESHOLD).1 = none →
        findHomographyInliers cv left right matching =
          some (0, [Call.GetAlignedPointsFromMatch, Call.findHomography])) ∧
      ((cv.findHomography aL.points aR.points RANSAC RANSAC_THRESHOLD).1 ≠ none →
        findHomographyInliers cv left right matching =
          some ((countNonZero (cv.findHomography aL.points aR.points RANSAC
            RANSAC_THRESHOLD).2 : Int), [Call.GetAlignedPointsFromMatch, Call.findHomography])) ∧
      ((cv.findHomography aL.points aR.points RANSAC RANSAC_THRESHOLD).2.length =
          matching.length →
        ∃ n tr, findHomographyInliers cv left right matching = some (n, tr) ∧
          0 ≤ n ∧ n ≤ (matching.length : Int)) := by
  obtain ⟨aL, aR, lb, rb, hal⟩ := getAligned_of_inRange left right matching hr
  have h4 : ¬ matching.length < 4 := by omega
  have hnone : (cv.findHomography aL.points aR.points RANSAC RANSAC_THRESHOLD).1 = none →
      findHomographyInliers cv left right matching =
        some (0, [Call.GetAlignedPointsFromMatch, Call.findHomography]) := by
    intro h
    simp [findHomographyInliers, hal, hlen, h]
  have hsome : (cv.findHomography aL.points aR.points RANSAC RANSAC_THRESHOLD).1 ≠ none →
      findHomographyInliers cv left right matching =
        some ((countNonZero (cv.findHomography aL.points aR.points RANSAC
          RANSAC_THRESHOLD).2 : Int), [Call.GetAlignedPointsFromMatch, Call.findHomography]) := by
    intro h
    have h2 : (cv.findHomography aL.points aR.points RANSAC RANSAC_THRESHOLD).1.isNone = false := by
      cases hh : (cv.findHomography aL.points aR.points RANSAC RANSAC_THRESHOLD).1 with
      | none => exact absurd hh h
      | some _ => rfl
    simp [findHomographyInliers, hal, hlen, h4, h2]
  refine ⟨aL, aR, lb, rb, hal, hnone, hsome, ?_⟩
  intro hm
  by_cases h : (cv.findHomography aL.points aR.points RANSAC RANSAC_THRESHOLD).1 = none
  · exact ⟨_, _, hnone h, le_refl _, by omega⟩
  · refine ⟨_, _, hsome h, by omega, ?_⟩
    have := countNonZero_le (cv.findHomography aL.points aR.points RANSAC RANSAC_THRESHOLD).2
    omega

/-- Witness of C7 on five correspondences. -/
theorem findHomographyInliers_count_witness :
    4 ≤ sampleMatching.length ∧ MatchesInRange sampleLeft sampleRight sampleMatching ∧
    ∃ aL aR lb rb, GetAlignedPointsFromMatch sampleLeft sampleRight sampleMatching =
        some (aL, aR, lb, rb) ∧
      (((sampleCv []).findHomography aL.points aR.points RANSAC RANSAC_THRESHOLD).1 = none →
        findHomographyInliers (sampleCv []) sampleLeft sampleRight sampleMatching =
          some (0, [Call.GetAlignedPointsFromMatch, Call.findHomography])) ∧
      (((sampleCv []).findHomography aL.points aR.points RANSAC RANSAC_THRESHOLD).1 ≠ none →
        findHomographyInliers (sampleCv []) sampleLeft sampleRight sampleMatching =
          some ((countNonZero ((sampleCv []).findHomography aL.points aR.points RANSAC
            RANSAC_THRESHOLD).2 : Int), [Call.GetAlignedPointsFromMatch, Call.findHomography])) ∧
      (((sampleCv []).findHomography aL.points aR.points RANSAC RANSAC_THRESHOLD).2.length =
          sampleMatching.length →
        ∃ n tr, findHomographyInliers (sampleCv []) sampleLeft sampleRight sampleMatching =
            some (n, tr) ∧ 0 ≤ n ∧ n ≤ (sampleMatching.length : Int)) :=
  ⟨by decide, by decide,
    findHomographyInliers_count (sampleCv []) sampleLeft sampleRight sampleMatching
      (by decide) (by decide)⟩

/-- The success path of `findCameraMatricesFromMatch` in closed form. -/
theorem findCameraMatricesFromMatch_eq (cv : CvLib) (intrinsics : Intrinsics)
    (matching : Matching) (featuresLeft featuresRight : Features) (out : CameraMatrices)
    (K : Matx33) (aL aR : Features) (lb rb : List Int) (hK : intrinsics.K = some K)
    (hal : GetAlignedPointsFromMatch featuresLeft featuresRight matching =
      some (aL, aR, lb, rb)) :
    findCameraMatricesFromMatch cv intrinsics matching featuresLeft featuresRight out =
      some (true,
        ⟨PruneFeaturesWithMask aL (recoveredPose cv K aL aR).2.2,
         PruneFeaturesWithMask aR (recoveredPose cv K aL aR).2.2,
         Matx34f.eye,
         !![cv.narrow ((recoveredPose cv K aL aR).1 0 0), cv.narrow ((recoveredPose cv K aL aR).1 0 1),
              cv.narrow ((recoveredPose cv K aL aR).1 0 2), cv.narrow ((recoveredPose cv K aL aR).2.1 0 0);
            cv.narrow ((recoveredPose cv K aL aR).1 1 0), cv.narrow ((recoveredPose cv K aL aR).1 1 1),
              cv.narrow ((recoveredPose cv K aL aR).1 1 2), cv.narrow ((recoveredPose cv K aL aR).2.1 1 0);
            cv.narrow ((recoveredPose cv K aL aR).1 2 0), cv.narrow ((recoveredPose cv K aL aR).1 2 1),
              cv.narrow ((recoveredPose cv K aL aR).1 2 2), cv.narrow ((recoveredPose cv K aL aR).2.1 2 0)]⟩,
        [Call.GetAlignedPointsFromMatch, Call.findEssentialMat, Call.recoverPose,
          Call.PruneFeaturesWithMask, Call.PruneFeaturesWithMask]) := by
  unfold findCameraMatricesFromMatch
  rw [hK]
  simp only [hal, recoveredPose]

/-- C6: with a non-empty calibration matrix (and indices in range)
`findCameraMatricesFromMatch` returns true whatever the length of the correspondence list,
`Pleft` is the identity pose `[I | 0]`, and row `r` of `Pright` is
`R[r][0], R[r][1], R[r][2], t[r]` for the `R` and `t` that `recoverPose` returned on the
essential matrix of the aligned points, each entry converted from `double` to `float`. -/
theorem findCameraMatricesFromMatch_poses (cv : CvLib) (intrinsics : Intrinsics)
    (matching : Matching) (featuresLeft featuresRight : Features) (out : CameraMatrices)
    (K : Matx33) (hK : intrinsics.K = some K)
    (hr : MatchesInRange featuresLeft featuresRight matching) :
    ∃ aL aR lb rb res,
      GetAlignedPointsFromMatch featuresLeft featuresRight matching = some (aL, aR, lb, rb) ∧
      findCameraMatricesFromMatch cv intrinsics matching featuresLeft featuresRight out =
        some (true, res, [Call.GetAlignedPointsFromMatch, Call.findEssentialMat,
          Call.recoverPose, Call.PruneFeaturesWithMask, Call.PruneFeaturesWithMask]) ∧
      (∀ (r : Fin 3) (c : Fin 4), res.Pleft r c = if r.val = c.val then 1 else 0) ∧
      ∀ r : Fin 3,
        (∀ c : Fin 3, res.Pright r c.castSucc =
          cv.narrow ((recoveredPose cv K aL aR).1 r c)) ∧
        res.Pright r 3 = cv.narrow ((recoveredPose cv K aL aR).2.1 r 0) := by
  obtain ⟨aL, aR, lb, rb, hal⟩ := getAligned_of_inRange featuresLeft featuresRight matching hr
  refine ⟨aL, aR, lb, rb, _, hal,
    findCameraMatricesFromMatch_eq cv intrinsics matching featuresLeft featuresRight out K
      aL aR lb rb hK hal, ?_, ?_⟩
  · intro r c
    fin_cases r <;> fin_cases c <;> rfl
  · intro r
    constructor
    · intro c
      fin_cases r <;> fin_cases c <;> rfl
    · fin_cases r <;> rfl

/-- Witness of C6 on two correspondences, fewer than the five of the essential-matrix
solver. -/
theorem findCameraMatricesFromMatch_poses_witness :
    sampleIntrinsics.K = some sampleK ∧
    MatchesInRange sampleLeft sampleRight sampleMatchingShort ∧
    ∃ aL aR lb rb res,
      GetAlignedPointsFromMatch sampleLeft sampleRight sampleMatchingShort =
        some (aL, aR, lb, rb) ∧
      findCameraMatricesFromMatch (sampleCv []) sampleIntrinsics sampleMatchingShort sampleLeft
          sampleRight sampleOut =
        some (true, res, [Call.GetAlignedPointsFromMatch, Call.findEssentialMat,
          Call.recoverPose, Call.PruneFeaturesWithMask, Call.PruneFeaturesWithMask]) ∧
      (∀ (r : Fin 3) (c : Fin 4), res.Pleft r c = if r.val = c.val then 1 else 0) ∧
      ∀ r : Fin 3,
        (∀ c : Fin 3, res.Pright r c.castSucc =
          (sampleCv []).narrow ((recoveredPose (sampleCv []) sampleK aL aR).1 r c)) ∧
        res.Pright r 3 = (sampleCv []).narrow ((recoveredPose (sampleCv []) sampleK aL aR).2.1 r 0) :=
  ⟨rfl, by decide,
    findCameraMatricesFromMatch_poses (sampleCv []) sampleIntrinsics sampleMatchingShort
      sampleLeft sampleRight sampleOut sampleK rfl (by decide)⟩

/-- C9: on the success path of `findCameraMatricesFromMatch` both pruned sets are the
aligned sets filtered by one and the same mask, the mask of `findEssentialMat` as refined
by `recoverPose`.  They have equal length; when the mask has one entry per correspondence
that length is the number of non-zero mask entries; and there is one subsequence `kept` of
the correspondence list, in the original order, such that `prunedLeft[k]` is the left
feature and `prunedRight[k]` the right feature of `kept[k]` for every `k`. -/
theorem findCameraMatricesFromMatch_pruned (cv : CvLib) (intrinsics : Intrinsics)
    (matching : Matching) (featuresLeft featuresRight : Features) (out : CameraMatrices)
    (K : Matx33) (hK : intrinsics.K = some K)
    (hr : MatchesInRange featuresLeft featuresRight matching) :
    ∃ aL aR lb rb res tr,
      GetAlignedPointsFromMatch featuresLeft featuresRight matching = some (aL, aR, lb, rb) ∧
      findCameraMatricesFromMatch cv intrinsics matching featuresLeft featuresRight out =
        some (true, res, tr) ∧
      res.prunedLeft = PruneFeaturesWithMask aL (recoveredPose cv K aL aR).2.2 ∧
      res.prunedRight = PruneFeaturesWithMask aR (recoveredPose cv K aL aR).2.2 ∧
      res.prunedLeft.points.length = res.prunedRight.points.length ∧
      ((recoveredPose cv K aL aR).2.2.length = matching.length →
        res.prunedLeft.points.length = countNonZero (recoveredPose cv K aL aR).2.2) ∧
      (maskFilter matching (recoveredPose cv K aL aR).2.2).Sublist matching ∧
      res.prunedLeft.points.map some =
        (maskFilter matching (recoveredPose cv K aL aR).2.2).map
          (fun m => pointAt featuresLeft.points m.queryIdx) ∧
      res.prunedRight.points.map some =
        (maskFilter matching (recoveredPose cv K aL aR).2.2).map
          (fun m => pointAt featuresRight.points m.trainIdx) := by
  obtain ⟨aL, aR, lb, rb, hal⟩ := getAligned_of_inRange featuresLeft featuresRight matching hr
  obtain ⟨h1, h2, -, -⟩ := getAligned_spec featuresLeft featuresRight matching aL aR lb rb hal
  obtain ⟨hl1, -, -, -⟩ := getAligned_lengths featuresLeft featuresRight matching aL aR lb rb hal
  have hL := maskFilter_map some (fun m : DMatch => pointAt featuresLeft.points m.queryIdx)
    aL.points matching (recoveredPose cv K aL aR).2.2 h1
  have hR := maskFilter_map some (fun m : DMatch => pointAt featuresRight.points m.trainIdx)
    aR.points matching (recoveredPose cv K aL aR).2.2 h2
  refine ⟨aL, aR, lb, rb, _, _, hal,
    findCameraMatricesFromMatch_eq cv intrinsics matching featuresLeft featuresRight out K
      aL aR lb rb hK hal, rfl, rfl, ?_, ?_, maskFilter_sublist _ _, hL, hR⟩
  · have e1 := congrArg List.length hL
    have e2 := congrArg List.length hR
    simp only [List.length_map] at e1 e2
    simp only [PruneFeaturesWithMask]
    omega
  · intro hm
    simp only [PruneFeaturesWithMask]
    exact maskFilter_length _ _ (by omega)

/-- Witness of C9 on five correspondences. -/
theorem findCameraMatricesFromMatch_pruned_witness :
    sampleIntrinsics.K = some sampleK ∧
    MatchesInRange sampleLeft sampleRight sampleMatching ∧
    ∃ aL aR lb rb res tr,
      GetAlignedPointsFromMatch sampleLeft sampleRight sampleMatching = some (aL, aR, lb, rb) ∧
      findCameraMatricesFromMatch (sampleCv []) sampleIntrinsics sampleMatching sampleLeft
          sampleRight sampleOut = some (true, res, tr) ∧
      res.prunedLeft = PruneFeaturesWithMask aL (recoveredPose (sampleCv []) sampleK aL aR).2.2 ∧
      res.prunedRight = PruneFeaturesWithMask aR (recoveredPose (sampleCv []) sampleK aL aR).2.2 ∧
      res.prunedLeft.points.length = res.prunedRight.points.length ∧
      ((recoveredPose (sampleCv []) sampleK aL aR).2.2.length = sampleMatching.length →
        res.prunedLeft.points.length =
          countNonZero (recoveredPose (sampleCv []) sampleK aL aR).2.2) ∧
      (maskFilter sampleMatching (recoveredPose (sampleCv []) sampleK aL aR).2.2).Sublist
        sampleMatching ∧
      res.prunedLeft.points.map some =
        (maskFilter sampleMatching (recoveredPose (sampleCv []) sampleK aL aR).2.2).map
          (fun m => pointAt sampleLeft.points m.queryIdx) ∧
      res.prunedRight.points.map some =
        (maskFilter sampleMatching (recoveredPose (sampleCv []) sampleK aL aR).2.2).map
          (fun m => pointAt sampleRight.points m.trainIdx) :=
  ⟨rfl, by decide,
    findCameraMatricesFromMatch_pruned (sampleCv []) sampleIntrinsics sampleMatching
      sampleLeft sampleRight sampleOut sampleK rfl (by decide)⟩

/-- C4 (amended): when the indices are in range and the triangulated rows do not outnumber
the correspondences, `triangulateViews` returns true and appends one map point per row; the
point appended at position `i` carries the back references of the `i`-th correspondence.
For distinct view ids its originating views have exactly two entries, left id -> left back
reference and right id -> right back reference; when the two ids coincide the single key
keeps only the right back reference. -/
theorem triangulateViews_originatingViews (cv : CvLib) (intrinsics : Intrinsics)
    (imagePair : ImagePair) (matching : Matching) (featuresLeft featuresRight : Features)
    (Pleft Pright : Matx34f) (pointCloud : PointCloud)
    (hr : MatchesInRange featuresLeft featuresRight matching)
    (hrows : ∀ aL aR lb rb,
      GetAlignedPointsFromMatch featuresLeft featuresRight matching = some (aL, aR, lb, rb) →
      (triangulated cv intrinsics Pleft Pright aL aR).length ≤ matching.length) :
    ∃ aL aR lb rb cloud tr,
      GetAlignedPointsFromMatch featuresLeft featuresRight matching = some (aL, aR, lb, rb) ∧
      triangulateViews cv intrinsics imagePair matching featuresLeft featuresRight Pleft Pright
        pointCloud = some (true, cloud, tr) ∧
      cloud.length = pointCloud.length + (triangulated cv intrinsics Pleft Pright aL aR).length ∧
      ∀ i, i < (triangulated cv intrinsics Pleft Pright aL aR).length →
        ∃ p m, cloud[pointCloud.length + i]? = some p ∧ matching[i]? = some m ∧
          lb[i]? = some m.queryIdx ∧ rb[i]? = some m.trainIdx ∧
          (imagePair.left ≠ imagePair.right →
            p.originatingViews.length = 2 ∧
            p.originatingViews.lookup imagePair.left = some m.queryIdx ∧
            p.originatingViews.lookup imagePair.right = some m.trainIdx) ∧
          (imagePair.left = imagePair.right →
            p.originatingViews = [(imagePair.right, m.trainIdx)]) := by
  obtain ⟨aL, aR, lb, rb, hal⟩ := getAligned_of_inRange featuresLeft featuresRight matching hr
  obtain ⟨-, -, h3, h4⟩ := getAligned_spec featuresLeft featuresRight matching aL aR lb rb hal
  have hle := hrows aL aR lb rb hal
  refine ⟨aL, aR, lb, rb, _, _, hal,
    triangulateViews_eq cv intrinsics imagePair matching featuresLeft featuresRight Pleft
      Pright pointCloud aL aR lb rb hal hle, ?_, ?_⟩
  · simp only [List.length_append, List.length_zipWith]
    omega
  · intro i hi
    have him : i < matching.length := by omega
    refine ⟨mapPoint imagePair (triangulated cv intrinsics Pleft Pright aL aR)[i]
      matching[i].queryIdx matching[i].trainIdx, matching[i], ?_, ?_, ?_, ?_, ?_, ?_⟩
    · rw [List.getElem?_append_right (by omega)]
      simp [List.getElem?_zipWith, List.getElem?_eq_getElem hi, List.getElem?_eq_getElem him]
    · exact List.getElem?_eq_getElem him
    · simp [h3, List.getElem?_eq_getElem him]
    · simp [h4, List.getElem?_eq_getElem him]
    · intro hne
      exact assign_distinct imagePair.left imagePair.right _ _ hne
    · intro heq
      simp only [mapPoint]
      rw [heq]
      exact assign_same imagePair.right _ _

/-- The hypothesis on the triangulator holds for the sample library on the two sample
correspondences: it yields one point per aligned correspondence. -/
theorem sample_rows (aL aR : Features) (lb rb : List Int)
    (h : GetAlignedPointsFromMatch sampleLeft sampleRight sampleMatchingShort =
      some (aL, aR, lb, rb)) :
    (triangulated (sampleCv []) sampleIntrinsics Matx34f.eye Matx34f.eye aL aR).length =
      sampleMatchingShort.length := by
  have e : GetAlignedPointsFromMatch sampleLeft sampleRight sampleMatchingShort =
      some (⟨[⟨0, 0⟩, ⟨0, 1⟩]⟩, ⟨[⟨4, 0⟩, ⟨3, 0⟩]⟩, [0, 2], [1, 0]) := by decide
  rw [e] at h
  simp only [Option.some.injEq, Prod.mk.injEq] at h
  obtain ⟨rfl, rfl, rfl, rfl⟩ := h
  decide

/-- Witness of C4 (amended) on two correspondences and the image pair (0, 1). -/
theorem triangulateViews_originatingViews_witness :
    MatchesInRange sampleLeft sampleRight sampleMatchingShort ∧
    (∀ aL aR lb rb,
      GetAlignedPointsFromMatch sampleLeft sampleRight sampleMatchingShort =
        some (aL, aR, lb, rb) →
      (triangulated (sampleCv []) sampleIntrinsics Matx34f.eye Matx34f.eye aL aR).length ≤
        sampleMatchingShort.length) ∧
    ∃ aL aR lb rb cloud tr,
      GetAlignedPointsFromMatch sampleLeft sampleRight sampleMatchingShort =
        some (aL, aR, lb, rb) ∧
      triangulateViews (sampleCv []) sampleIntrinsics ⟨0, 1⟩ sampleMatchingShort sampleLeft
        sampleRight Matx34f.eye Matx34f.eye [] = some (true, cloud, tr) ∧
      cloud.length = ([] : PointCloud).length +
        (triangulated (sampleCv []) sampleIntrinsics Matx34f.eye Matx34f.eye aL aR).length ∧
      ∀ i, i < (triangulated (sampleCv []) sampleIntrinsics Matx34f.eye Matx34f.eye
          aL aR).length →
        ∃ p m, cloud[([] : PointCloud).length + i]? = some p ∧
          sampleMatchingShort[i]? = some m ∧
          lb[i]? = some m.queryIdx ∧ rb[i]? = some m.trainIdx ∧
          ((⟨0, 1⟩ : ImagePair).left ≠ (⟨0, 1⟩ : ImagePair).right →
            p.originatingViews.length = 2 ∧
            p.originatingViews.lookup (⟨0, 1⟩ : ImagePair).left = some m.queryIdx ∧
            p.originatingViews.lookup (⟨0, 1⟩ : ImagePair).right = some m.trainIdx) ∧
          ((⟨0, 1⟩ : ImagePair).left = (⟨0, 1⟩ : ImagePair).right →
            p.originatingViews = [((⟨0, 1⟩ : ImagePair).right, m.trainIdx)]) :=
  ⟨by decide, fun aL aR lb rb h => le_of_eq (sample_rows aL aR lb rb h),
    triangulateViews_originatingViews (sampleCv []) sampleIntrinsics ⟨0, 1⟩
      sampleMatchingShort sampleLeft sampleRight Matx34f.eye Matx34f.eye [] (by decide)
      (fun aL aR lb rb h => le_of_eq (sample_rows aL aR lb rb h))⟩

/-- Counterexample to C4 as stated: for the image pair (7, 7) and the correspondence (0, 1)
the appended map point has the single entry 7 -> 1; the entry 7 -> 0 for the left back
reference is not there. -/
theorem triangulateViews_same_view :
    (triangulateViews (sampleCv []) sampleIntrinsics ⟨7, 7⟩ [⟨0, 1⟩] sampleLeft sampleRight
        Matx34f.eye Matx34f.eye []).map
      (fun r => r.2.1.map Point3DInMap.originatingViews) = some [[(7, 1)]] := by
  decide

/-- C5: `triangulateViews` only appends.  When the indices are in range and the
triangulator yields one 3D point per aligned correspondence, it returns true and the cloud
on exit is the cloud on entry, every entry kept in place, followed by exactly one map point
per correspondence.  The `k`-th appended point has the coordinates of the `k`-th
triangulated row and the originating views assigned from the `k`-th correspondence: the
right view id maps to its right feature index and, for distinct view ids, the left view id
maps to its left feature index.  Every index the loop reads from the back references is in
range and holds the indices of that correspondence. -/
theorem triangulateViews_appends (cv : CvLib) (intrinsics : Intrinsics)
    (imagePair : ImagePair) (matching : Matching) (featuresLeft featuresRight : Features)
    (Pleft Pright : Matx34f) (pointCloud : PointCloud)
    (hr : MatchesInRange featuresLeft featuresRight matching)
    (hrows : ∀ aL aR lb rb,
      GetAlignedPointsFromMatch featuresLeft featuresRight matching = some (aL, aR, lb, rb) →
      (triangulated cv intrinsics Pleft Pright aL aR).length = matching.length) :
    ∃ aL aR lb rb added tr,
      GetAlignedPointsFromMatch featuresLeft featuresRight matching = some (aL, aR, lb, rb) ∧
      triangulateViews cv intrinsics imagePair matching featuresLeft featuresRight Pleft Pright
        pointCloud = some (true, pointCloud ++ added, tr) ∧
      added.length = matching.length ∧
      (∀ i, i < pointCloud.length → (pointCloud ++ added)[i]? = pointCloud[i]?) ∧
      (∀ k, k < matching.length →
        ∃ row m p, (triangulated cv intrinsics Pleft Pright aL aR)[k]? = some row ∧
          matching[k]? = some m ∧
          lb[k]? = some m.queryIdx ∧ rb[k]? = some m.trainIdx ∧
          (pointCloud ++ added)[pointCloud.length + k]? = some p ∧
          p.p = row ∧
          p.originatingViews =
            OriginatingViews.assign (OriginatingViews.assign [] imagePair.left m.queryIdx)
              imagePair.right m.trainIdx ∧
          p.originatingViews.lookup imagePair.right = some m.trainIdx ∧
          (imagePair.left ≠ imagePair.right →
            p.originatingViews.length = 2 ∧
            p.originatingViews.lookup imagePair.left = some m.queryIdx)) ∧
      ∀ i, i < (triangulated cv intrinsics Pleft Pright aL aR).length →
        i < lb.length ∧ i < rb.length := by
  obtain ⟨aL, aR, lb, rb, hal⟩ := getAligned_of_inRange featuresLeft featuresRight matching hr
  obtain ⟨-, -, h3, h4⟩ := getAligned_spec featuresLeft featuresRight matching aL aR lb rb hal
  obtain ⟨-, -, hl3, hl4⟩ :=
    getAligned_lengths featuresLeft featuresRight matching aL aR lb rb hal
  have heq := hrows aL aR lb rb hal
  refine ⟨aL, aR, lb, rb, _, _, hal,
    triangulateViews_eq cv intrinsics imagePair matching featuresLeft featuresRight Pleft
      Pright pointCloud aL aR lb rb hal (le_of_eq heq), ?_, ?_, ?_, ?_⟩
  · simp only [List.length_zipWith]
    omega
  · intro i hi
    exact List.getElem?_append_left hi
  · intro k hk
    have hk2 : k < (triangulated cv intrinsics Pleft Pright aL aR).length := by omega
    refine ⟨(triangulated cv intrinsics Pleft Pright aL aR)[k], matching[k],
      mapPoint imagePair (triangulated cv intrinsics Pleft Pright aL aR)[k]
        matching[k].queryIdx matching[k].trainIdx,
      List.getElem?_eq_getElem hk2, List.getElem?_eq_getElem hk, ?_, ?_, ?_, rfl, rfl,
      assign_lookup_right _ _ _ _, ?_⟩
    · simp [h3, List.getElem?_eq_getElem hk]
    · simp [h4, List.getElem?_eq_getElem hk]
    · rw [List.getElem?_append_right (by omega)]
      simp [List.getElem?_zipWith, List.getElem?_eq_getElem hk2, List.getElem?_eq_getElem hk]
    · intro hne
      exact ⟨(assign_distinct imagePair.left imagePair.right _ _ hne).1,
        (assign_distinct imagePair.left imagePair.right _ _ hne).2.1⟩
  · intro i hi
    omega

/-- Witness of C5: two points are appended to a cloud that already holds one. -/
theorem triangulateViews_appends_witness :
    MatchesInRange sampleLeft sampleRight sampleMatchingShort ∧
    (∀ aL aR lb rb,
      GetAlignedPointsFromMatch sampleLeft sampleRight sampleMatchingShort =
        some (aL, aR, lb, rb) →
      (triangulated (sampleCv []) sampleIntrinsics Matx34f.eye Matx34f.eye aL aR).length =
        sampleMatchingShort.length) ∧
    ∃ aL aR lb rb added tr,
      GetAlignedPointsFromMatch sampleLeft sampleRight sampleMatchingShort =
        some (aL, aR, lb, rb) ∧
      triangulateViews (sampleCv []) sampleIntrinsics ⟨0, 1⟩ sampleMatchingShort sampleLeft
        sampleRight Matx34f.eye Matx34f.eye sampleCloud = some (true, sampleCloud ++ added, tr) ∧
      added.length = sampleMatchingShort.length ∧
      (∀ i, i < sampleCloud.length → (sampleCloud ++ added)[i]? = sampleCloud[i]?) ∧
      (∀ k, k < sampleMatchingShort.length →
        ∃ row m p, (triangulated (sampleCv []) sampleIntrinsics Matx34f.eye Matx34f.eye
            aL aR)[k]? = some row ∧
          sampleMatchingShort[k]? = some m ∧
          lb[k]? = some m.queryIdx ∧ rb[k]? = some m.trainIdx ∧
          (sampleCloud ++ added)[sampleCloud.length + k]? = some p ∧
          p.p = row ∧
          p.originatingViews =
            OriginatingViews.assign
              (OriginatingViews.assign [] (⟨0, 1⟩ : ImagePair).left m.queryIdx)
              (⟨0, 1⟩ : ImagePair).right m.trainIdx ∧
          p.originatingViews.lookup (⟨0, 1⟩ : ImagePair).right = some m.trainIdx ∧
          ((⟨0, 1⟩ : ImagePair).left ≠ (⟨0, 1⟩ : ImagePair).right →
            p.originatingViews.length = 2 ∧
            p.originatingViews.lookup (⟨0, 1⟩ : ImagePair).left = some m.queryIdx)) ∧
      ∀ i, i < (triangulated (sampleCv []) sampleIntrinsics Matx34f.eye Matx34f.eye
          aL aR).length → i < lb.length ∧ i < rb.length :=
  ⟨by decide, sample_rows,
    triangulateViews_appends (sampleCv []) sampleIntrinsics ⟨0, 1⟩ sampleMatchingShort
      sampleLeft sampleRight Matx34f.eye Matx34f.eye sampleCloud (by decide) sample_rows⟩

/-- The outcome of `triangulateViews` does not depend on the distortion coefficients of the
calibration: the calls to `undistortPoints` receive an empty coefficient vector. -/
theorem triangulateViews_distortion_unused (cv : CvLib) (K : Option Matx33) (d : List ℚ)
    (imagePair : ImagePair) (matching : Matching) (featuresLeft featuresRight : Features)
    (Pleft Pright : Matx34f) (pointCloud : PointCloud) :
    triangulateViews cv ⟨K, d⟩ imagePair matching featuresLeft featuresRight Pleft Pright
        pointCloud =
      triangulateViews cv ⟨K, []⟩ imagePair matching featuresLeft featuresRight Pleft Pright
        pointCloud := rfl

/-- C10 fails on the code: on a calibration with the non-zero distortion coefficients
(1/10, 0, 0, 0) both calls to `undistortPoints` receive the camera matrix and an empty
coefficient vector, and the outcome is the one for a calibration without distortion,
whereas the pose solver of `findCameraPoseFrom2D3DMatch` is handed the coefficients.  For
the sample library, whose undistortion depends on the coefficients, the normalised points
the claim describes differ from the ones the code computes. -/
theorem triangulateViews_drops_distortion :
    sampleIntrinsics.distortion = [1 / 10, 0, 0, 0] ∧
    (triangulateViews (sampleCv []) sampleIntrinsics ⟨0, 1⟩ sampleMatchingShort sampleLeft
        sampleRight Matx34f.eye Matx34f.eye []).map (fun r => r.2.2) =
      some [Call.GetAlignedPointsFromMatch,
        Call.undistortPoints (some sampleK) [], Call.undistortPoints (some sampleK) [],
        Call.triangulatePoints, Call.convertPointsFromHomogeneous] ∧
    triangulateViews (sampleCv []) sampleIntrinsics ⟨0, 1⟩ sampleMatchingShort sampleLeft
        sampleRight Matx34f.eye Matx34f.eye [] =
      triangulateViews (sampleCv []) ⟨some sampleK, []⟩ ⟨0, 1⟩ sampleMatchingShort sampleLeft
        sampleRight Matx34f.eye Matx34f.eye [] ∧
    (findCameraPoseFrom2D3DMatch (sampleCv [1, 2, 3]) (1 / 2) sampleIntrinsics sampleMatchSet
        0).map (fun r => r.2.2) =
      some [Call.solvePnPRansac (some sampleK) [1 / 10, 0, 0, 0], Call.Rodrigues] ∧
    (sampleCv []).undistortPoints [⟨0, 0⟩, ⟨0, 1⟩] (some sampleK) sampleIntrinsics.distortion ≠
      (sampleCv []).undistortPoints [⟨0, 0⟩, ⟨0, 1⟩] (some sampleK) [] := by
  refine ⟨rfl, ?_, rfl, ?_, ?_⟩
  rotate_left 2
  · simp [sampleCv, sampleIntrinsics]
  · have e : GetAlignedPointsFromMatch sampleLeft sampleRight sampleMatchingShort =
        some (⟨[⟨0, 0⟩, ⟨0, 1⟩]⟩, ⟨[⟨4, 0⟩, ⟨3, 0⟩]⟩, [0, 2], [1, 0]) := by decide
    rw [triangulateViews_eq (sampleCv []) sampleIntrinsics ⟨0, 1⟩ sampleMatchingShort
      sampleLeft sampleRight Matx34f.eye Matx34f.eye [] _ _ _ _ e
      (le_of_eq (sample_rows _ _ _ _ e))]
    rfl
  · rw [findCameraPoseFrom2D3DMatch_eq (sampleCv [1, 2, 3]) (1 / 2) sampleIntrinsics
      sampleMatchSet 0 sample_ratio_ok]
    rfl

/-- C3 (amended): on a match set with at least one correspondence, if the single-precision
quotient `(float)k / (float)n` that the source computes (`k` the number of non-zero entries
of the solver's `inliers`, `n` the number of 2D points) is strictly below
`POSE_INLIERS_MINIMAL_RATIO`, then `findCameraPoseFrom2D3DMatch` returns false, the pose is
the one on entry and nothing but the solver was called; and whenever it returns true that
quotient is at least the threshold.  The quotient is 0 for `k = 0`; otherwise it is the
`float` nearest to `fa / fb`, where `fa` and `fb` are the `float`s nearest to `k` and `n`
(round to nearest, ties to even). -/
theorem findCameraPoseFrom2D3DMatch_rejects (cv : CvLib) (ratio : Float32)
    (intrinsics : Intrinsics) (matchSet : Image2D3DMatch) (cameraPose : Matx34f)
    (hn : 1 ≤ matchSet.points2D.length) :
    (floatQuotient (countNonZero (solvedPose cv intrinsics matchSet).2.2)
          matchSet.points2D.length < ratio →
        findCameraPoseFrom2D3DMatch cv ratio intrinsics matchSet cameraPose =
          some (false, cameraPose, [Call.solvePnPRansac intrinsics.K intrinsics.distortion])) ∧
      (∀ pose tr, findCameraPoseFrom2D3DMatch cv ratio intrinsics matchSet cameraPose =
          some (true, pose, tr) →
        ratio ≤ floatQuotient (countNonZero (solvedPose cv intrinsics matchSet).2.2)
          matchSet.points2D.length) ∧
      (countNonZero (solvedPose cv intrinsics matchSet).2.2 = 0 →
        floatQuotient (countNonZero (solvedPose cv intrinsics matchSet).2.2)
          matchSet.points2D.length = 0) ∧
      (0 < countNonZero (solvedPose cv intrinsics matchSet).2.2 →
        ∃ fa fb : ℚ,
          IsNearestFloat (countNonZero (solvedPose cv intrinsics matchSet).2.2 : ℚ) fa ∧
          IsNearestFloat (matchSet.points2D.length : ℚ) fb ∧
          IsNearestFloat (fa / fb)
            (floatQuotient (countNonZero (solvedPose cv intrinsics matchSet).2.2)
              matchSet.points2D.length)) := by
  have hn0 : matchSet.points2D.length ≠ 0 := by omega
  have low : floatQuotient (countNonZero (solvedPose cv intrinsics matchSet).2.2)
        matchSet.points2D.length < ratio →
      findCameraPoseFrom2D3DMatch cv ratio intrinsics matchSet cameraPose =
        some (false, cameraPose, [Call.solvePnPRansac intrinsics.K intrinsics.distortion]) := by
    intro h
    apply findCameraPoseFrom2D3DMatch_reject_eq
    simp only [ratioBelow, decide_eq_true_eq]
    exact ⟨hn0, h⟩
  refine ⟨low, ?_, ?_, ?_⟩
  · intro pose tr hres
    by_contra hlt
    rw [low (lt_of_not_le hlt)] at hres
    simp at hres
  · intro h0
    rw [h0]
    exact floatQuotient_zero _
  · intro hpos
    exact floatQuotient_spec _ _ hpos (by omega)

/-- Witness of C3 (amended): one non-zero inlier entry among four correspondences is below
the ratio 1/2; the zero pose on entry is returned, not the pose of the solver. -/
theorem findCameraPoseFrom2D3DMatch_rejects_witness :
    1 ≤ sampleMatchSet.points2D.length ∧
    floatQuotient (countNonZero (solvedPose (sampleCv [1]) sampleIntrinsics sampleMatchSet).2.2)
      sampleMatchSet.points2D.length < 1 / 2 ∧
    findCameraPoseFrom2D3DMatch (sampleCv [1]) (1 / 2) sampleIntrinsics sampleMatchSet 0 =
      some (false, 0,
        [Call.solvePnPRansac sampleIntrinsics.K sampleIntrinsics.distortion]) :=
  ⟨by decide, sample_ratio_low,
    (findCameraPoseFrom2D3DMatch_rejects (sampleCv [1]) (1 / 2) sampleIntrinsics sampleMatchSet
      0 (by decide)).1 sample_ratio_low⟩

/-- Counterexample to C3 as stated.  With 1 inlier among 10 points and the threshold
13421773 / 2^27 (the `float` nearest to 0.1), and with 2^24 inliers among 2^25 + 2 points
and the threshold 1/2, the number of inliers divided by the number of points is strictly
below the threshold, yet `findCameraPoseFrom2D3DMatch` returns true and writes the pose of
the solver over the zero pose: entry (0, 0) becomes 1 and entry (0, 3) becomes 5. -/
theorem findCameraPoseFrom2D3DMatch_float_ratio :
    ((countNonZero (solvedPose (sampleCv [1]) sampleIntrinsics sampleMatchSet10).2.2 : ℚ) /
        (sampleMatchSet10.points2D.length : ℚ) < 13421773 / 134217728 ∧
      (findCameraPoseFrom2D3DMatch (sampleCv [1]) (13421773 / 134217728) sampleIntrinsics
          sampleMatchSet10 0).map (fun r => (r.1, r.2.1 0 0, r.2.1 0 3)) =
        some (true, 1, 5)) ∧
    ((countNonZero (solvedPose (sampleCv (List.replicate 16777216 1)) sampleIntrinsics
          sampleMatchSetLarge).2.2 : ℚ) /
        (sampleMatchSetLarge.points2D.length : ℚ) < 1 / 2 ∧
      (findCameraPoseFrom2D3DMatch (sampleCv (List.replicate 16777216 1)) (1 / 2)
          sampleIntrinsics sampleMatchSetLarge 0).map (fun r => (r.1, r.2.1 0 0, r.2.1 0 3)) =
        some (true, 1, 5)) := by
  have a1 : countNonZero (solvedPose (sampleCv [1]) sampleIntrinsics sampleMatchSet10).2.2 = 1 := by
    decide
  have a2 : sampleMatchSet10.points2D.length = 10 := by decide
  have a3 : floatQuotientFrac 1 10 = (13421773, 134217728) := by decide
  have b1 : countNonZero (solvedPose (sampleCv (List.replicate 16777216 1)) sampleIntrinsics
      sampleMatchSetLarge).2.2 = 16777216 := by
    have e : (solvedPose (sampleCv (List.replicate 16777216 1)) sampleIntrinsics
        sampleMatchSetLarge).2.2 = List.replicate 16777216 1 := rfl
    rw [e]
    exact countNonZero_replicate 16777216 1 (by decide)
  have b2 : sampleMatchSetLarge.points2D.length = 33554434 := List.length_replicate _ _
  have b3 : floatQuotientFrac 16777216 33554434 = (8388608, 16777216) := by decide
  refine ⟨⟨?_, ?_⟩, ⟨?_, ?_⟩⟩
  · rw [a1, a2]
    norm_num
  · rw [findCameraPoseFrom2D3DMatch_eq (sampleCv [1]) (13421773 / 134217728) sampleIntrinsics
      sampleMatchSet10 0 (by
        rw [a1, a2]
        simp only [ratioBelow, floatQuotient, a3, decide_eq_false_iff_not]
        norm_num)]
    rfl
  · rw [b1, b2]
    norm_num
  · rw [findCameraPoseFrom2D3DMatch_eq (sampleCv (List.replicate 16777216 1)) (1 / 2)
      sampleIntrinsics sampleMatchSetLarge 0 (by
        rw [b1, b2]
        simp only [ratioBelow, floatQuotient, b3, decide_eq_false_iff_not]
        norm_num)]
    rfl

/-- C8: whenever `findCameraPoseFrom2D3DMatch` accepts the estimate (the inlier ratio is
not below the threshold) it returns true and the pose on exit is `[R | t]`: columns 0..2
hold the rotation matrix that `Rodrigues` makes of the solver's `rvec`, column 3 holds the
solver's `tvec`, each entry converted from `double` to `float`. -/
theorem findCameraPoseFrom2D3DMatch_accepts (cv : CvLib) (ratio : Float32)
    (intrinsics : Intrinsics) (matchSet : Image2D3DMatch) (cameraPose : Matx34f)
    (hacc : ratioBelow (countNonZero (solvedPose cv intrinsics matchSet).2.2)
      matchSet.points2D.length ratio = false) :
    ∃ pose, findCameraPoseFrom2D3DMatch cv ratio intrinsics matchSet cameraPose =
        some (true, pose,
          [Call.solvePnPRansac intrinsics.K intrinsics.distortion, Call.Rodrigues]) ∧
      ∀ r : Fin 3,
        (∀ c : Fin 3, pose r c.castSucc =
          cv.narrow (cv.Rodrigues (solvedPose cv intrinsics matchSet).1 r c)) ∧
        pose r 3 = cv.narrow ((solvedPose cv intrinsics matchSet).2.1 r 0) := by
  refine ⟨_, findCameraPoseFrom2D3DMatch_eq cv ratio intrinsics matchSet cameraPose hacc, ?_⟩
  intro r
  constructor
  · intro c
    fin_cases r <;> fin_cases c <;> rfl
  · fin_cases r <;> rfl

/-- Witness of C8: three non-zero inlier entries among four correspondences reach the ratio
1/2. -/
theorem findCameraPoseFrom2D3DMatch_accepts_witness :
    ratioBelow (countNonZero (solvedPose (sampleCv [1, 2, 3]) sampleIntrinsics
      sampleMatchSet).2.2) sampleMatchSet.points2D.length (1 / 2) = false ∧
    ∃ pose, findCameraPoseFrom2D3DMatch (sampleCv [1, 2, 3]) (1 / 2) sampleIntrinsics
        sampleMatchSet 0 =
        some (true, pose,
          [Call.solvePnPRansac sampleIntrinsics.K sampleIntrinsics.distortion,
            Call.Rodrigues]) ∧
      ∀ r : Fin 3,
        (∀ c : Fin 3, pose r c.castSucc =
          (sampleCv [1, 2, 3]).narrow ((sampleCv [1, 2, 3]).Rodrigues
            (solvedPose (sampleCv [1, 2, 3]) sampleIntrinsics sampleMatchSet).1 r c)) ∧
        pose r 3 = (sampleCv [1, 2, 3]).narrow
          ((solvedPose (sampleCv [1, 2, 3]) sampleIntrinsics sampleMatchSet).2.1 r 0) :=
  ⟨sample_ratio_ok,
    findCameraPoseFrom2D3DMatch_accepts (sampleCv [1, 2, 3]) (1 / 2) sampleIntrinsics
      sampleMatchSet 0 sample_ratio_ok⟩

end sfmtoylib
